import Mathlib

/-!
# A shallow embedding of the api2go collection unmarshaler

This file embeds `src/unmarshal.go` (package api2go) in Lean 4 and proves
properties of the embedding.  The decoded JSON document
(`map[string]interface{}` in Go) is modelled by the inductive type `Value`;
Go structs reachable through `reflect` are modelled by association lists of
named, kinded fields; the working slice, the caller-visible slice and their
aliasing (the Go slice header copied in `Unmarshal`, written back only on
success) are modelled by the state `UState` together with a reallocation
oracle standing for the unknown capacity of the caller's backing array.

Helper functions of the repository that are not part of `src/`
(`pluralize`, `jsonify`, `dejsonify`, `idFromObject`, `setObjectID`,
`setIDValue`) are modelled from the specification and marked as such.
-/

set_option autoImplicit false

namespace Api2go

/-- A decoded dynamic value: the Go `interface\x7b\x7d` tree produced by a JSON
decoder or built directly by the caller.  Objects and the top-level context
are association lists standing for Go maps. -/
inductive Value where
  | null
  | bool (b : Bool)
  | num (n : Int)
  | str (s : String)
  | arr (xs : List Value)
  | obj (fields : List (String × Value))

/-- First-match lookup in an association list, the Go map read `m[k]`. -/
def lookupKey (m : List (String × Value)) (k : String) : Option Value :=
  match m with
  | [] => none
  | (k1, v) :: rest => if k1 = k then some v else lookupKey rest k

/-- The kind of a Go struct field reachable by the unmarshaler: a string, an
integer, or a slice of string/integer foreign keys. -/
inductive FKind where
  | fstr
  | fint
  | fstrList
  | fintList
deriving DecidableEq, Repr

/-- A concrete value stored in a struct field. -/
inductive FieldVal where
  | vstr (s : String)
  | vint (n : Int)
  | vstrList (xs : List String)
  | vintList (xs : List Int)
deriving DecidableEq, Repr

/-- The kind of a stored field value. -/
def FieldVal.kind : FieldVal → FKind
  | .vstr _ => .fstr
  | .vint _ => .fint
  | .vstrList _ => .fstrList
  | .vintList _ => .fintList

/-- The zero value of a field kind (`reflect.New` zero-initializes). -/
def FKind.zero : FKind → FieldVal
  | .fstr => .vstr ""
  | .fint => .vint 0
  | .fstrList => .vstrList []
  | .fintList => .vintList []

/-- A Go struct type: its name and its declared fields in order. -/
structure STy where
  name : String
  fields : List (String × FKind)
deriving DecidableEq, Repr

/-- A Go struct value: named fields in declaration order. -/
abbrev StructVal := List (String × FieldVal)

/-- First-match field lookup on a struct type. -/
def lookupField (fs : List (String × FKind)) (f : String) : Option FKind :=
  match fs with
  | [] => none
  | (g, k) :: rest => if g = f then some k else lookupField rest f

/-- `reflect.Value.FieldByName`: the first field with the given name. -/
def fieldByName (sv : StructVal) (f : String) : Option FieldVal :=
  match sv with
  | [] => none
  | (g, a) :: rest => if g = f then some a else fieldByName rest f

/-- Overwrite the first field with the given name; no-op if absent. -/
def setFieldByName (sv : StructVal) (f : String) (a : FieldVal) : StructVal :=
  match sv with
  | [] => []
  | (g, b) :: rest =>
    if g = f then (g, a) :: rest else (g, b) :: setFieldByName rest f a

/-- `reflect.New(structType).Elem()`: a freshly zero-valued struct. -/
def zeroVal (T : STy) : StructVal :=
  T.fields.map (fun p => (p.1, p.2.zero))

/-- A struct value is well formed for a type when its fields carry exactly
the declared names and kinds, in order. -/
def WFStruct (T : STy) (sv : StructVal) : Prop :=
  sv.map (fun p => (p.1, p.2.kind)) = T.fields

instance (T : STy) (sv : StructVal) : Decidable (WFStruct T sv) := by
  unfold WFStruct; infer_instance

/-- Whether a struct type declares a field of the given name. -/
def hasField (T : STy) (f : String) : Bool :=
  (lookupField T.fields f).isSome

/-- Modelled from the spec: `jsonify` (not under `src/`) converts an
`UpperCamelCase` struct identifier to the document key convention; here the
first character is lowercased. -/
def jsonify (s : String) : String :=
  match s.data with
  | [] => s
  | c :: cs => String.mk (c.toLower :: cs)

/-- Modelled from the spec: `dejsonify` (not under `src/`) is the inverse
transform, converting a document key back to a struct field name; here the
first character is uppercased. -/
def dejsonify (s : String) : String :=
  match s.data with
  | [] => s
  | c :: cs => String.mk (c.toUpper :: cs)

/-- Modelled from the spec: `pluralize` (not under `src/`) returns the
English plural of a noun; here the naive suffix form. -/
def pluralize (s : String) : String := s ++ "s"

/-- Modelled from the spec: `idFromObject` (not under `src/`) reads the
identifier field (conventionally `ID`) of an element as a string, the int
form rendered in base 10; a missing or non-identifier-typed field is an
error. -/
def idFromObject (sv : StructVal) : Except String String :=
  match fieldByName sv "ID" with
  | some (.vstr s) => .ok s
  | some (.vint n) => .ok (toString n)
  | some _ => .error "expected the ID field to be a string or an int"
  | none => .error "expected struct to have an ID field"

/-- Modelled from the spec: identifier coercion into a string field — the
value must itself be a string. -/
def setIDValueStr (v : Value) : Except String String :=
  match v with
  | .str s => .ok s
  | _ => .error "expected ID to be a string"

/-- The numeric value of a decimal digit character. -/
def digitVal (c : Char) : Option Nat :=
  if c.isDigit then some (c.toNat - 48) else none

/-- Accumulate a base-10 natural number over a character list. -/
def parseNatAux : List Char → Nat → Option Nat
  | [], acc => some acc
  | c :: cs, acc =>
    match digitVal c with
    | some d => parseNatAux cs (acc * 10 + d)
    | none => none

/-- Parse a base-10 integer with an optional leading minus sign; the empty
string and any non-digit character are rejected. -/
def parseInt (s : String) : Option Int :=
  match s.data with
  | [] => none
  | '-' :: cs =>
    match cs with
    | [] => none
    | _ => (parseNatAux cs 0).map (fun n => -(n : Int))
  | cs => (parseNatAux cs 0).map (fun n => (n : Int))

/-- Modelled from the spec: identifier coercion into an integer-like field —
the string is parsed as a base-10 integer, anything else is an error. -/
def setIDValueInt (v : Value) : Except String Int :=
  match v with
  | .str s =>
    match parseInt s with
    | some n => .ok n
    | none => .error ("invalid identifier, expected a base-10 integer: " ++ s)
  | _ => .error "expected ID to be a string"

/-- Modelled from the spec: `setIDValue` (not under `src/`) assigns an
identifier to a field slot of the given kind; a missing field or a
non-identifier kind is the unsupported-identifier-field-type error. -/
def setIDValue (k : Option FKind) (v : Value) : Except String FieldVal :=
  match k with
  | some .fstr => (setIDValueStr v).map FieldVal.vstr
  | some .fint => (setIDValueInt v).map FieldVal.vint
  | _ => .error "expected ID field to be of type int or string"

/-- Modelled from the spec: `setObjectID` (not under `src/`) coerces the
record's id string into the element's identifier field. -/
def setObjectID (sv : StructVal) (id : String) : Except String StructVal :=
  match setIDValue ((fieldByName sv "ID").map FieldVal.kind) (.str id) with
  | .ok a => .ok (setFieldByName sv "ID" a)
  | .error e => .error e

/-- `field.Set(reflect.ValueOf(v))`: direct assignment of a dynamic value to
a field slot, allowed only when the dynamic type is the field type; `none`
stands for the reflect panic on a non-assignable value. -/
def assignValue (k : FKind) (v : Value) : Option FieldVal :=
  match k, v with
  | .fstr, .str s => some (.vstr s)
  | .fint, .num n => some (.vint n)
  | _, _ => none

/-- `unmarshalLinks`: resolve each relationship entry of a links object
against the working struct.  A string-sequence value wholesale-replaces the
`<Name>IDs` slice field; a single string sets the `<Name>ID` field via
identifier coercion; any other shape is an error. -/
def unmarshalLinks (val : StructVal) (linksMap : List (String × Value)) :
    Except String StructVal :=
  match linksMap with
  | [] => .ok val
  | (linkName, linkObj) :: rest =>
    match linkObj with
    | .arr links =>
      let structFieldName := dejsonify linkName ++ "IDs"
      match fieldByName val structFieldName with
      | some (.vstrList _) =>
        match links.mapM setIDValueStr with
        | .ok ss =>
          unmarshalLinks (setFieldByName val structFieldName (.vstrList ss)) rest
        | .error e => .error e
      | some (.vintList _) =>
        match links.mapM setIDValueInt with
        | .ok ns =>
          unmarshalLinks (setFieldByName val structFieldName (.vintList ns)) rest
        | .error e => .error e
      | _ => .error ("expected struct to have a " ++ structFieldName ++ " slice")
    | .str s =>
      let structFieldName := dejsonify linkName ++ "ID"
      match setIDValue ((fieldByName val structFieldName).map FieldVal.kind)
          (.str s) with
      | .ok a => unmarshalLinks (setFieldByName val structFieldName a) rest
      | .error e => .error e
    | _ => .error "expected string or array in links object"

/-- The state of one `Unmarshal` call: `work` is the working slice (the
local copy of the slice header), `caller` is what the caller sees through
its own unchanged slice header, `shared` records whether the working
prefix still aliases the caller's backing array, and `appends` counts
`reflect.Append` calls so the reallocation oracle can be consulted. -/
structure UState where
  caller : List StructVal
  work : List StructVal
  shared : Bool
  appends : Nat
deriving DecidableEq, Repr

/-- Write an element of the working slice in place; the write is visible to
the caller while the backing array is still shared and the index lies in
the caller's view. -/
def UState.writeSlot (st : UState) (i : Nat) (v : StructVal) : UState :=
  { st with
    work := st.work.set i v
    caller :=
      if st.shared ∧ i < st.caller.length then st.caller.set i v
      else st.caller }

/-- `reflect.Append`: grow the working slice; whether the backing array is
reallocated (capacity exhausted) is decided by the oracle. -/
def UState.push (oracle : Nat → Bool) (st : UState) (v : StructVal) : UState :=
  { st with
    work := st.work ++ [v]
    shared := st.shared && !(oracle st.appends)
    appends := st.appends + 1 }

/-- Outcome of a step that yields a value: returned error, or a reflect
fatal abort. -/
inductive ROut (α : Type) where
  | ok (a : α)
  | err (msg : String)
  | fatal (msg : String)
deriving DecidableEq, Repr

/-- Outcome of a stateful phase: on a returned error the state at the time
of the error is kept (it determines what the caller still sees). -/
inductive SOut where
  | ok (st : UState)
  | err (msg : String) (st : UState)
  | fatal (msg : String)
deriving DecidableEq, Repr

/-- Outcome of the key loop: the state and the current working value. -/
inductive KOut where
  | ok (st : UState) (val : StructVal)
  | err (msg : String) (st : UState)
  | fatal (msg : String)
deriving DecidableEq, Repr

/-- One iteration of the key loop of `unmarshalInto`: `"links"` delegates to
`unmarshalLinks`, `"id"` to `setObjectID`, and any other key is assigned
directly to the `dejsonify`-translated field, which must exist. -/
def applyKey (T : STy) (val : StructVal) (k : String) (v : Value) :
    ROut StructVal :=
  if k = "links" then
    match v with
    | .obj linksMap =>
      match unmarshalLinks val linksMap with
      | .ok val1 => .ok val1
      | .error e => .err e
    | _ => .err "expected links to be an object"
  else if k = "id" then
    match v with
    | .str id =>
      match setObjectID val id with
      | .ok val1 => .ok val1
      | .error e => .err e
    | _ => .err "expected id to be of type string"
  else
    let fieldName := dejsonify k
    match fieldByName val fieldName with
    | none => .err ("expected struct " ++ T.name ++ " to have field " ++ fieldName)
    | some a =>
      match assignValue a.kind v with
      | some a1 => .ok (setFieldByName val fieldName a1)
      | none => .fatal "reflect: value is not assignable to field type"

/-- The key loop of `unmarshalInto` over one record object.  When the
working value is a matched slice element (`loc = some i`) every assignment
lands in the slice immediately, as it does through the `reflect` reference
in the source. -/
def processKeys (T : STy) (st : UState) (loc : Option Nat) (val : StructVal) :
    List (String × Value) → KOut
  | [] => .ok st val
  | (k, v) :: rest =>
    match applyKey T val k v with
    | .ok val1 =>
      let st1 :=
        match loc with
        | some i => st.writeSlot i val1
        | none => st
      processKeys T st1 loc val1 rest
    | .err e => .err e st
    | .fatal m => .fatal m

/-- The id pre-scan of `unmarshalInto`: a non-nil `"id"` must be a string
and is matched against the working slice by `idFromObject`; the working
value is the first match, else a fresh zero value.  Returns the slot index
(`none` for a fresh value) and the initial working value. -/
def findByID (work : List StructVal) (id : String) :
    Except String (Option (Nat × StructVal)) :=
  match work with
  | [] => .ok none
  | obj :: rest =>
    match idFromObject obj with
    | .error e => .error e
    | .ok otherID =>
      if otherID = id then .ok (some (0, obj))
      else
        match findByID rest id with
        | .ok (some (i, o)) => .ok (some (i + 1, o))
        | .ok none => .ok none
        | .error e => .error e

/-- Resolve the working value for one record object: scan by non-null
string id, else start from a fresh zero value. -/
def idResolve (T : STy) (work : List StructVal)
    (attributes : List (String × Value)) :
    Except String (Option Nat × StructVal) :=
  match lookupKey attributes "id" with
  | some .null => .ok (none, zeroVal T)
  | some (.str id) =>
    match findByID work id with
    | .ok (some (i, obj)) => .ok (some i, obj)
    | .ok none => .ok (none, zeroVal T)
    | .error e => .error e
  | some _ => .error "id must be a string"
  | none => .ok (none, zeroVal T)

/-- Process one record object: resolve the working value, run the key loop,
and append the value if it was freshly created. -/
def processRecord (oracle : Nat → Bool) (T : STy) (st : UState)
    (attributes : List (String × Value)) : SOut :=
  match idResolve T st.work attributes with
  | .error e => .err e st
  | .ok (some i, obj) =>
    match processKeys T st (some i) obj attributes with
    | .ok st1 _ => .ok st1
    | .err e st1 => .err e st1
    | .fatal m => .fatal m
  | .ok (none, v0) =>
    match processKeys T st none v0 attributes with
    | .ok st1 val1 => .ok (st1.push oracle val1)
    | .err e st1 => .err e st1
    | .fatal m => .fatal m

/-- The record loop of `unmarshalInto`: each entry must be an object;
processing stops at the first error. -/
def processModels (oracle : Nat → Bool) (T : STy) (rootName : String)
    (st : UState) : List Value → SOut
  | [] => .ok st
  | m :: rest =>
    match m with
    | .obj attributes =>
      match processRecord oracle T st attributes with
      | .ok st1 => processModels oracle T rootName st1 rest
      | .err e st1 => .err e st1
      | .fatal msg => .fatal msg
    | _ => .err ("expected an array of objects under key " ++ rootName) st

/-- `unmarshalInto`: locate the pluralized root key (a nil value counts as
missing, as for a Go map read), require a slice under it, and run the
record loop. -/
def unmarshalInto (oracle : Nat → Bool) (T : STy)
    (ctx : List (String × Value)) (st : UState) : SOut :=
  let rootName := pluralize (jsonify T.name)
  match lookupKey ctx rootName with
  | none =>
    .err ("expected root document to include a " ++ rootName ++
      " key but it did not") st
  | some .null =>
    .err ("expected root document to include a " ++ rootName ++
      " key but it did not") st
  | some (.arr models) => processModels oracle T rootName st models
  | some _ => .err ("expected slice under key " ++ rootName) st

/-- The shape of the `values interface\x7b\x7d` argument of `Unmarshal`, as
examined by the reflective contract checks. -/
inductive GoArg where
  | notPtr
  | nilPtr
  | ptrToNonSlice
  | ptrToSliceOfNonStruct
  | ptrToSliceOfStruct (T : STy) (dst : List StructVal)

/-- The observable result of one `Unmarshal` call: a fatal abort, a
returned error together with what the caller now sees, or success together
with the written-back slice. -/
inductive UnmarshalResult where
  | aborted (msg : String)
  | errored (msg : String) (dst : List StructVal)
  | succeeded (dst : List StructVal)
deriving DecidableEq, Repr

/-- `Unmarshal`: the contract checks abort on anything that is not a
non-nil pointer to a slice of structs; otherwise the working copy of the
slice header is processed and written back to the caller only on success. -/
def Unmarshal (oracle : Nat → Bool) (ctx : List (String × Value))
    (arg : GoArg) : UnmarshalResult :=
  match arg with
  | .notPtr => .aborted "You must pass a pointer to a []struct to Unmarshal()"
  | .nilPtr => .aborted "You must pass a pointer to a []struct to Unmarshal()"
  | .ptrToNonSlice =>
    .aborted "You must pass a pointer to a []struct to Unmarshal()"
  | .ptrToSliceOfNonStruct =>
    .aborted "You must pass a pointer to a []struct to Unmarshal()"
  | .ptrToSliceOfStruct T dst =>
    match unmarshalInto oracle T ctx
        { caller := dst, work := dst, shared := true, appends := 0 } with
    | .ok st => .succeeded st.work
    | .err e st => .errored e st.caller
    | .fatal msg => .aborted msg

/-! ## A value-level description of the writes of one record object

Every assignment performed by the key loop writes a constant value — one
determined by the record object and the struct type alone, never by the
current contents of the working struct.  The following definitions compute
that write list; the equivalence with the operational definitions above is
proved further down and drives the idempotence analysis. -/

/-- The field names of a struct value, in order. -/
def namesOf (sv : StructVal) : List String := sv.map Prod.fst

/-- Apply a list of constant field writes in order. -/
def applyWrites (val : StructVal) (ws : List (String × FieldVal)) : StructVal :=
  ws.foldl (fun v w => setFieldByName v w.1 w.2) val

/-- The last write to a given field in a write list. -/
def lastWrite : List (String × FieldVal) → String → Option FieldVal
  | [], _ => none
  | (g, a) :: rest, f =>
    match lastWrite rest f with
    | some b => some b
    | none => if g = f then some a else none

/-- The writes performed by `unmarshalLinks`, described against the struct
type alone. -/
def linksSpec (T : STy) :
    List (String × Value) → Except String (List (String × FieldVal))
  | [] => .ok []
  | (linkName, linkObj) :: rest =>
    match linkObj with
    | .arr links =>
      let structFieldName := dejsonify linkName ++ "IDs"
      match lookupField T.fields structFieldName with
      | some .fstrList =>
        match links.mapM setIDValueStr with
        | .ok ss =>
          match linksSpec T rest with
          | .ok ws => .ok ((structFieldName, .vstrList ss) :: ws)
          | .error e => .error e
        | .error e => .error e
      | some .fintList =>
        match links.mapM setIDValueInt with
        | .ok ns =>
          match linksSpec T rest with
          | .ok ws => .ok ((structFieldName, .vintList ns) :: ws)
          | .error e => .error e
        | .error e => .error e
      | _ => .error ("expected struct to have a " ++ structFieldName ++ " slice")
    | .str s =>
      let structFieldName := dejsonify linkName ++ "ID"
      match setIDValue (lookupField T.fields structFieldName) (.str s) with
      | .ok a =>
        match linksSpec T rest with
        | .ok ws => .ok ((structFieldName, a) :: ws)
        | .error e => .error e
      | .error e => .error e
    | _ => .error "expected string or array in links object"

/-- The writes performed by `applyKey`, described against the struct type
alone. -/
def applyKeySpec (T : STy) (k : String) (v : Value) :
    ROut (List (String × FieldVal)) :=
  if k = "links" then
    match v with
    | .obj linksMap =>
      match linksSpec T linksMap with
      | .ok ws => .ok ws
      | .error e => .err e
    | _ => .err "expected links to be an object"
  else if k = "id" then
    match v with
    | .str id =>
      match setIDValue (lookupField T.fields "ID") (.str id) with
      | .ok a => .ok [("ID", a)]
      | .error e => .err e
    | _ => .err "expected id to be of type string"
  else
    match lookupField T.fields (dejsonify k) with
    | none =>
      .err ("expected struct " ++ T.name ++ " to have field " ++ dejsonify k)
    | some kd =>
      match assignValue kd v with
      | some a => .ok [(dejsonify k, a)]
      | none => .fatal "reflect: value is not assignable to field type"

/-- The writes performed by the whole key loop. -/
def keysSpec (T : STy) : List (String × Value) → ROut (List (String × FieldVal))
  | [] => .ok []
  | (k, v) :: rest =>
    match applyKeySpec T k v with
    | .ok ws =>
      match keysSpec T rest with
      | .ok ws2 => .ok (ws ++ ws2)
      | .err e => .err e
      | .fatal m => .fatal m
    | .err e => .err e
    | .fatal m => .fatal m

/-- A key of a record object that never writes the identifier field except
through `"id"` itself. -/
def keyOK (k : String) (v : Value) : Prop :=
  if k = "id" then True
  else if k = "links" then
    match v with
    | .obj linksMap =>
      ∀ e ∈ linksMap,
        dejsonify e.1 ++ "ID" ≠ "ID" ∧ dejsonify e.1 ++ "IDs" ≠ "ID"
    | _ => True
  else dejsonify k ≠ "ID"

/-- A record object fit for idempotent reprocessing: an object carrying a
string id, with distinct keys none of which smuggles a write into the
identifier field. -/
def recordOK (m : Value) : Prop :=
  match m with
  | .obj attributes =>
    (∃ id, lookupKey attributes "id" = some (.str id)) ∧
    (attributes.map Prod.fst).Nodup ∧
    (∀ e ∈ attributes, keyOK e.1 e.2)
  | _ => False

/-- The id string of a record object, if any. -/
def recID (m : Value) : Option String :=
  match m with
  | .obj attributes =>
    match lookupKey attributes "id" with
    | some (.str id) => some id
    | _ => none
  | _ => none

/-- The caller-view length carried by a key-loop outcome. -/
def callerLenK (n : Nat) : KOut → Prop
  | .ok st _ => st.caller.length = n
  | .err _ st => st.caller.length = n
  | .fatal _ => True

/-- The caller-view length carried by a record-loop outcome. -/
def callerLenS (n : Nat) : SOut → Prop
  | .ok st => st.caller.length = n
  | .err _ st => st.caller.length = n
  | .fatal _ => True

/-- While the backing array is still shared — no append has reallocated
it — the caller's view is exactly the caller-length front of the working
slice, so every in-place write performed so far is visible to the caller. -/
def sharedView (st : UState) : Prop :=
  st.shared = true → st.caller = st.work.take st.caller.length

/-- `sharedView`, read off a record-step outcome. -/
def sharedViewS : SOut → Prop
  | .ok st => sharedView st
  | .err _ st => sharedView st
  | .fatal _ => True

/-- `sharedView`, read off a key-loop outcome. -/
def sharedViewK : KOut → Prop
  | .ok st _ => sharedView st
  | .err _ st => sharedView st
  | .fatal _ => True

/-! ## Concrete fixtures used by witnesses and counterexamples -/

/-- A destination struct type with a string identifier and two attributes. -/
def PostT : STy :=
  { name := "Post", fields := [("ID", .fstr), ("Title", .fstr), ("Body", .fstr)] }

/-- A destination element with identifier `"42"`. -/
def elem42 : StructVal :=
  [("ID", .vstr "42"), ("Title", .vstr "old"), ("Body", .vstr "keep")]

/-- A document with one record object carrying `"id": "42"` and a changed
`title` attribute. -/
def ctxC2 : List (String × Value) :=
  [("posts", .arr [.obj [("id", .str "42"), ("title", .str "new")]])]

/-- `elem42` after merging `ctxC2`: the title updated, the rest kept. -/
def elem42new : StructVal :=
  [("ID", .vstr "42"), ("Title", .vstr "new"), ("Body", .vstr "keep")]

/-- A document whose first record appends a fresh element and whose second
record fails with an unknown attribute key. -/
def ctxC4 : List (String × Value) :=
  [("posts", .arr [.obj [("title", .str "a")], .obj [("bogus", .str "b")]])]

/-- A document whose first record merges into `elem42` and whose second
record fails with an unknown attribute key. -/
def ctxC4b : List (String × Value) :=
  [("posts", .arr
    [.obj [("id", .str "42"), ("title", .str "new")],
     .obj [("bogus", .str "b")]])]

/-- A document with a single record object that carries no `"id"`. -/
def ctxC5 : List (String × Value) :=
  [("posts", .arr [.obj [("title", .str "x")]])]

/-- The element appended by one pass over `ctxC5`. -/
def elemC5 : StructVal :=
  [("ID", .vstr ""), ("Title", .vstr "x"), ("Body", .vstr "")]

/-- The element built from the first record object of `ctxC4`. -/
def elemC4 : StructVal :=
  [("ID", .vstr ""), ("Title", .vstr "a"), ("Body", .vstr "")]

/-- A document whose record assigns an integer to the string `title`
field, a non-assignable dynamic type. -/
def ctxC8 : List (String × Value) :=
  [("posts", .arr [.obj [("title", .num 1)]])]

/-- A destination struct type with a to-many foreign-key slice named after
the plural relationship key (`tags` resolves to `TagsIDs`). -/
def TagT : STy :=
  { name := "Post", fields := [("ID", .fstr), ("TagIDs", .fstrList)] }

/-- A destination element carrying a prior `TagIDs` value, as in the
claimed example. -/
def elemTag : StructVal :=
  [("ID", .vstr "1"), ("TagIDs", .vstrList ["1", "2"])]

/-- The claimed links object: the relationship key `tags` with a
string-sequence value. -/
def ctxC6 : List (String × Value) :=
  [("posts", .arr
    [.obj [("id", .str "1"), ("links", .obj [("tags", .arr [.str "3"])])]])]

/-- A record object with one attribute and no id. -/
def attrsC1 : List (String × Value) := [("title", .str "w")]

/-- The initial state of an `Unmarshal` call on an empty destination. -/
def stC1 : UState :=
  { caller := [], work := [], shared := true, appends := 0 }

/-- The state after appending the element built from `attrsC1`. -/
def stC1done : UState :=
  { caller := [],
    work := [[("ID", .vstr ""), ("Title", .vstr "w"), ("Body", .vstr "")]],
    shared := true, appends := 1 }

/-- A document whose single record object carries a non-string id. -/
def ctxC10 : List (String × Value) :=
  [("posts", .arr [.obj [("id", .num 7)]])]

/-- A document whose first record object has an unknown attribute key and
which still contains a further record object after it. -/
def ctxC3 : List (String × Value) :=
  [("posts", .arr [.obj [("bogus", .str "x")], .obj [("title", .str "q")]])]

/-- The record objects of a document fit for idempotent reprocessing. -/
def msC5 : List Value := [.obj [("id", .str "9"), ("title", .str "t")]]

/-- A document whose single record object carries the id `"9"`. -/
def ctxC5W : List (String × Value) := [("posts", .arr msC5)]

/-- The destination produced by one pass of `ctxC5W` over an empty
destination. -/
def outC5 : List StructVal :=
  [[("ID", .vstr "9"), ("Title", .vstr "t"), ("Body", .vstr "")]]

/-! ## Basic lemmas about lists, states and the key loop -/

theorem processKeys_nil (T : STy) (st : UState) (loc : Option Nat)
    (val : StructVal) : processKeys T st loc val [] = .ok st val := rfl

theorem processKeys_cons (T : STy) (st : UState) (loc : Option Nat)
    (val : StructVal) (k : String) (v : Value)
    (rest : List (String × Value)) :
    processKeys T st loc val ((k, v) :: rest) =
      match applyKey T val k v with
      | .ok val1 =>
        processKeys T
          (match loc with | some i => st.writeSlot i val1 | none => st)
          loc val1 rest
      | .err e => .err e st
      | .fatal m => .fatal m := rfl

theorem Unmarshal_slice (oracle : Nat → Bool) (ctx : List (String × Value))
    (T : STy) (dst : List StructVal) :
    Unmarshal oracle ctx (.ptrToSliceOfStruct T dst) =
      match unmarshalInto oracle T ctx
          { caller := dst, work := dst, shared := true, appends := 0 } with
      | .ok st => .succeeded st.work
      | .err e st => .errored e st.caller
      | .fatal msg => .aborted msg := rfl

theorem unmarshalInto_def (oracle : Nat → Bool) (T : STy)
    (ctx : List (String × Value)) (st : UState) :
    unmarshalInto oracle T ctx st =
      match lookupKey ctx (pluralize (jsonify T.name)) with
      | none =>
        .err ("expected root document to include a " ++
          pluralize (jsonify T.name) ++ " key but it did not") st
      | some .null =>
        .err ("expected root document to include a " ++
          pluralize (jsonify T.name) ++ " key but it did not") st
      | some (.arr models) =>
        processModels oracle T (pluralize (jsonify T.name)) st models
      | some _ =>
        .err ("expected slice under key " ++ pluralize (jsonify T.name)) st :=
  rfl

theorem unmarshalLinks_cons_str (val : StructVal) (name s : String)
    (rest : List (String × Value)) :
    unmarshalLinks val ((name, Value.str s) :: rest) =
      match setIDValue
          ((fieldByName val (dejsonify name ++ "ID")).map FieldVal.kind)
          (.str s) with
      | .ok a =>
        unmarshalLinks (setFieldByName val (dejsonify name ++ "ID") a) rest
      | .error e => .error e := rfl

theorem unmarshalLinks_cons_arr (val : StructVal) (name : String)
    (links : List Value) (rest : List (String × Value)) :
    unmarshalLinks val ((name, Value.arr links) :: rest) =
      match fieldByName val (dejsonify name ++ "IDs") with
      | some (.vstrList _) =>
        match links.mapM setIDValueStr with
        | .ok ss =>
          unmarshalLinks
            (setFieldByName val (dejsonify name ++ "IDs") (.vstrList ss)) rest
        | .error e => .error e
      | some (.vintList _) =>
        match links.mapM setIDValueInt with
        | .ok ns =>
          unmarshalLinks
            (setFieldByName val (dejsonify name ++ "IDs") (.vintList ns)) rest
        | .error e => .error e
      | _ =>
        .error ("expected struct to have a " ++ (dejsonify name ++ "IDs") ++
          " slice") := rfl

theorem processRecord_def (oracle : Nat → Bool) (T : STy) (st : UState)
    (attributes : List (String × Value)) :
    processRecord oracle T st attributes =
      match idResolve T st.work attributes with
      | .error e => .err e st
      | .ok (some i, obj) =>
        match processKeys T st (some i) obj attributes with
        | .ok st1 _ => .ok st1
        | .err e st1 => .err e st1
        | .fatal m => .fatal m
      | .ok (none, v0) =>
        match processKeys T st none v0 attributes with
        | .ok st1 val1 => .ok (st1.push oracle val1)
        | .err e st1 => .err e st1
        | .fatal m => .fatal m := rfl

theorem processModels_nil (oracle : Nat → Bool) (T : STy) (rootName : String)
    (st : UState) : processModels oracle T rootName st [] = .ok st := rfl

theorem processModels_cons_obj (oracle : Nat → Bool) (T : STy)
    (rootName : String) (st : UState) (attributes : List (String × Value))
    (rest : List Value) :
    processModels oracle T rootName st (Value.obj attributes :: rest) =
      match processRecord oracle T st attributes with
      | .ok st1 => processModels oracle T rootName st1 rest
      | .err e st1 => .err e st1
      | .fatal msg => .fatal msg := rfl

theorem set_of_get_eq {α : Type} :
    ∀ (l : List α) (i : Nat) (a : α), l.get? i = some a → l.set i a = l
  | [], _, _, h => by cases h
  | x :: xs, 0, a, h => by
    simp only [List.get?_cons_zero, Option.some.injEq] at h
    simp [h]
  | x :: xs, i + 1, a, h => by
    simp only [List.get?_cons_succ] at h
    simp [set_of_get_eq xs i a h]

theorem mapM_except_length {α β ε : Type} (f : α → Except ε β) :
    ∀ (xs : List α) (ys : List β), xs.mapM f = .ok ys → ys.length = xs.length
  | [], ys, h => by
    have h2 : Except.ok ([] : List β) = Except.ok ys := h
    rw [← Except.ok.inj h2]
    rfl
  | x :: xs, ys, h => by
    rw [List.mapM_cons] at h
    cases hx : f x with
    | error e => rw [hx] at h; exact Except.noConfusion h
    | ok b =>
      rw [hx] at h
      cases hxs : List.mapM f xs with
      | error e => rw [hxs] at h; exact Except.noConfusion h
      | ok bs =>
        rw [hxs] at h
        have h2 : Except.ok (b :: bs) = Except.ok ys := h
        rw [← Except.ok.inj h2]
        simp [mapM_except_length f xs bs hxs]

theorem writeSlot_caller (st : UState) (i : Nat) (v : StructVal) :
    (st.writeSlot i v).caller =
      if st.shared ∧ i < st.caller.length then st.caller.set i v
      else st.caller := rfl

theorem writeSlot_caller_length (st : UState) (i : Nat) (v : StructVal) :
    (st.writeSlot i v).caller.length = st.caller.length := by
  rw [writeSlot_caller]
  split <;> simp

theorem pk_none_state (T : STy) :
    ∀ (ks : List (String × Value)) (st : UState) (val : StructVal)
      (st1 : UState) (val1 : StructVal),
      processKeys T st none val ks = .ok st1 val1 → st1 = st := by
  intro ks
  induction ks with
  | nil =>
    intro st val st1 val1 h
    rw [processKeys_nil] at h
    cases h
    rfl
  | cons kv rest ih =>
    intro st val st1 val1 h
    obtain ⟨k, v⟩ := kv
    rw [processKeys_cons] at h
    cases hak : applyKey T val k v with
    | ok val2 => rw [hak] at h; exact ih st val2 st1 val1 h
    | err e => rw [hak] at h; cases h
    | fatal m => rw [hak] at h; cases h

theorem pk_some_frame (T : STy) :
    ∀ (ks : List (String × Value)) (st : UState) (val : StructVal) (i : Nat)
      (st1 : UState) (val1 : StructVal),
      processKeys T st (some i) val ks = .ok st1 val1 →
      st1.work.length = st.work.length ∧
      st1.shared = st.shared ∧ st1.appends = st.appends ∧
      ∀ j, j ≠ i → st1.work.get? j = st.work.get? j := by
  intro ks
  induction ks with
  | nil =>
    intro st val i st1 val1 h
    rw [processKeys_nil] at h
    cases h
    exact ⟨rfl, rfl, rfl, fun _ _ => rfl⟩
  | cons kv rest ih =>
    intro st val i st1 val1 h
    obtain ⟨k, v⟩ := kv
    rw [processKeys_cons] at h
    cases hak : applyKey T val k v with
    | ok val2 =>
      rw [hak] at h
      obtain ⟨hl, hs, ha, hj⟩ := ih (st.writeSlot i val2) val2 i st1 val1 h
      refine ⟨?_, hs, ha, ?_⟩
      · simpa [UState.writeSlot] using hl
      · intro j hji
        rw [hj j hji]
        simp only [UState.writeSlot]
        exact List.get?_set_ne val2 st.work (Ne.symm hji)
    | err e => rw [hak] at h; cases h
    | fatal m => rw [hak] at h; cases h

theorem pk_callerLen (T : STy) :
    ∀ (ks : List (String × Value)) (st : UState) (loc : Option Nat)
      (val : StructVal),
      callerLenK st.caller.length (processKeys T st loc val ks) := by
  intro ks
  induction ks with
  | nil => intro st loc val; exact rfl
  | cons kv rest ih =>
    intro st loc val
    obtain ⟨k, v⟩ := kv
    rw [processKeys_cons]
    cases hak : applyKey T val k v with
    | ok val2 =>
      cases loc with
      | none => exact ih st none val2
      | some i =>
        have hlen := ih (st.writeSlot i val2) (some i) val2
        rwa [writeSlot_caller_length] at hlen
    | err e => exact rfl
    | fatal m => exact trivial

theorem pr_callerLen (oracle : Nat → Bool) (T : STy) (st : UState)
    (attributes : List (String × Value)) :
    callerLenS st.caller.length (processRecord oracle T st attributes) := by
  rw [processRecord_def]
  split
  · exact rfl
  · rename_i i obj hres
    split
    · rename_i st1 val1 hpk
      have hk := pk_callerLen T attributes st (some i) obj
      rw [hpk] at hk
      exact hk
    · rename_i e st1 hpk
      have hk := pk_callerLen T attributes st (some i) obj
      rw [hpk] at hk
      exact hk
    · exact trivial
  · rename_i v0 hres
    split
    · rename_i st1 val1 hpk
      have hk := pk_callerLen T attributes st none v0
      rw [hpk] at hk
      exact hk
    · rename_i e st1 hpk
      have hk := pk_callerLen T attributes st none v0
      rw [hpk] at hk
      exact hk
    · exact trivial

theorem pm_callerLen (oracle : Nat → Bool) (T : STy) (rootName : String) :
    ∀ (ms : List Value) (st : UState),
      callerLenS st.caller.length (processModels oracle T rootName st ms) := by
  intro ms
  induction ms with
  | nil => intro st; exact rfl
  | cons m rest ih =>
    intro st
    cases m with
    | obj attributes =>
      rw [processModels_cons_obj]
      have hr := pr_callerLen oracle T st attributes
      cases hpr : processRecord oracle T st attributes with
      | ok st1 =>
        rw [hpr] at hr
        have h2 := ih st1
        rwa [hr] at h2
      | err e st1 => rw [hpr] at hr; exact hr
      | fatal msg => exact trivial
    | null => exact rfl
    | bool b => exact rfl
    | num n => exact rfl
    | str s => exact rfl
    | arr xs => exact rfl

theorem writeSlot_work (st : UState) (i : Nat) (v : StructVal) :
    (st.writeSlot i v).work = st.work.set i v := rfl

theorem sharedView_init (dst : List StructVal) :
    sharedView { caller := dst, work := dst, shared := true, appends := 0 } := by
  intro _
  show dst = dst.take dst.length
  rw [List.take_length]

theorem sv_writeSlot (st : UState) (i : Nat) (v : StructVal)
    (h : sharedView st) : sharedView (st.writeSlot i v) := by
  intro hsh
  have hq : st.shared = true := hsh
  have hc := h hq
  rw [sharedView] at *
  rw [writeSlot_caller_length, writeSlot_caller, writeSlot_work]
  by_cases hlt : i < st.caller.length
  · rw [if_pos ⟨hq, hlt⟩, List.set_take, ← hc]
  · rw [if_neg (fun hand => hlt hand.2), List.set_take, ← hc,
      List.set_eq_of_length_le (Nat.le_of_not_lt hlt)]

theorem sv_push (oracle : Nat → Bool) (st : UState) (v : StructVal)
    (h : sharedView st) : sharedView (st.push oracle v) := by
  intro hsh
  have hsh2 : (st.shared && !(oracle st.appends)) = true := hsh
  rw [Bool.and_eq_true] at hsh2
  have hc := h hsh2.1
  have hlen := congrArg List.length hc
  rw [List.length_take] at hlen
  show st.caller = (st.work ++ [v]).take st.caller.length
  rw [List.take_append_of_le_length (by omega)]
  exact hc

theorem sv_pk (T : STy) :
    ∀ (ks : List (String × Value)) (st : UState) (loc : Option Nat)
      (val : StructVal),
      sharedView st → sharedViewK (processKeys T st loc val ks) := by
  intro ks
  induction ks with
  | nil => intro st loc val h; exact h
  | cons kv rest ih =>
    intro st loc val h
    obtain ⟨k, v⟩ := kv
    rw [processKeys_cons]
    cases hak : applyKey T val k v with
    | ok val2 =>
      cases loc with
      | none => exact ih st none val2 h
      | some i =>
        exact ih (st.writeSlot i val2) (some i) val2 (sv_writeSlot st i val2 h)
    | err e => exact h
    | fatal m => exact trivial

theorem sv_pr (oracle : Nat → Bool) (T : STy) (st : UState)
    (attributes : List (String × Value)) (h : sharedView st) :
    sharedViewS (processRecord oracle T st attributes) := by
  rw [processRecord_def]
  split
  · exact h
  · rename_i i obj hres
    have hk := sv_pk T attributes st (some i) obj h
    split
    · rename_i st1 val1 hpk
      rw [hpk] at hk
      exact hk
    · rename_i e st1 hpk
      rw [hpk] at hk
      exact hk
    · exact trivial
  · rename_i v0 hres
    have hk := sv_pk T attributes st none v0 h
    split
    · rename_i st1 val1 hpk
      rw [hpk] at hk
      exact sv_push oracle st1 val1 hk
    · rename_i e st1 hpk
      rw [hpk] at hk
      exact hk
    · exact trivial

theorem sv_pm (oracle : Nat → Bool) (T : STy) (rootName : String) :
    ∀ (ms : List Value) (st : UState),
      sharedView st → sharedViewS (processModels oracle T rootName st ms) := by
  intro ms
  induction ms with
  | nil => intro st h; exact h
  | cons m rest ih =>
    intro st h
    cases m with
    | obj attributes =>
      rw [processModels_cons_obj]
      have hr := sv_pr oracle T st attributes h
      cases hpr : processRecord oracle T st attributes with
      | ok st1 =>
        rw [hpr] at hr
        exact ih st1 hr
      | err e st1 => rw [hpr] at hr; exact hr
      | fatal msg => exact trivial
    | null => exact h
    | bool b => exact h
    | num n => exact h
    | str s2 => exact h
    | arr xs => exact h

theorem findByID_some (id : String) :
    ∀ (w : List StructVal) (i : Nat) (obj : StructVal),
      findByID w id = .ok (some (i, obj)) →
      w.get? i = some obj ∧ idFromObject obj = .ok id ∧
      ∀ j, j < i → ∀ o, w.get? j = some o → idFromObject o ≠ .ok id := by
  intro w
  induction w with
  | nil => intro i obj h; cases h
  | cons x rest ih =>
    intro i obj h
    simp only [findByID] at h
    split at h
    · cases h
    · rename_i otherID hx
      split at h
      · rename_i heq
        simp only [Except.ok.injEq, Option.some.injEq, Prod.mk.injEq] at h
        obtain ⟨hi, hobj⟩ := h
        subst hobj
        refine ⟨?_, ?_, ?_⟩
        · rw [← hi]; rfl
        · rw [hx, heq]
        · intro j hj
          rw [← hi] at hj
          exact absurd hj (Nat.not_lt_zero j)
      · rename_i hne
        split at h
        · rename_i i1 o1 hrest
          simp only [Except.ok.injEq, Option.some.injEq, Prod.mk.injEq] at h
          obtain ⟨hi, hobj⟩ := h
          subst hobj
          obtain ⟨hg, hid, hpre⟩ := ih i1 o1 hrest
          refine ⟨?_, hid, ?_⟩
          · rw [← hi]; simpa using hg
          · intro j hj o hget
            cases j with
            | zero =>
              simp only [List.get?_cons_zero, Option.some.injEq] at hget
              subst hget
              rw [hx]
              intro hc
              exact hne (Except.ok.inj hc)
            | succ j1 =>
              rw [← hi] at hj
              simp only [List.get?_cons_succ] at hget
              exact hpre j1 (Nat.lt_of_succ_lt_succ hj) o hget
        · simp at h
        · cases h

theorem findByID_none (id : String) :
    ∀ (w : List StructVal),
      findByID w id = .ok none →
      ∀ j o, w.get? j = some o → idFromObject o ≠ .ok id := by
  intro w
  induction w with
  | nil => intro _ j o hget; cases hget
  | cons x rest ih =>
    intro h j o hget
    simp only [findByID] at h
    split at h
    · cases h
    · rename_i otherID hx
      split at h
      · simp at h
      · rename_i hne
        split at h
        · simp at h
        · rename_i hrest
          cases j with
          | zero =>
            simp only [List.get?_cons_zero, Option.some.injEq] at hget
            subst hget
            rw [hx]
            intro hc
            exact hne (Except.ok.inj hc)
          | succ j1 =>
            simp only [List.get?_cons_succ] at hget
            exact ih hrest j1 o hget
        · cases h

/-- Case analysis on a successful `processRecord`: either a non-null id
matched an existing element and the key loop ran against that slot, or the
key loop ran against a fresh zero value which was then appended. -/
theorem idResolve_def (T : STy) (work : List StructVal)
    (attributes : List (String × Value)) :
    idResolve T work attributes =
      match lookupKey attributes "id" with
      | some .null => .ok (none, zeroVal T)
      | some (.str id) =>
        match findByID work id with
        | .ok (some (i, obj)) => .ok (some i, obj)
        | .ok none => .ok (none, zeroVal T)
        | .error e => .error e
      | some _ => .error "id must be a string"
      | none => .ok (none, zeroVal T) := rfl

theorem idResolve_some (T : STy) (work : List StructVal)
    (attributes : List (String × Value)) (i : Nat) (obj : StructVal)
    (h : idResolve T work attributes = .ok (some i, obj)) :
    ∃ id, lookupKey attributes "id" = some (.str id) ∧
      findByID work id = .ok (some (i, obj)) := by
  rw [idResolve_def] at h
  split at h
  · simp at h
  · rename_i id hlk
    split at h
    · rename_i i1 o1 hf
      simp only [Except.ok.injEq, Prod.mk.injEq, Option.some.injEq] at h
      obtain ⟨hi, ho⟩ := h
      subst hi
      subst ho
      exact ⟨id, hlk, hf⟩
    · simp at h
    · cases h
  · cases h
  · simp at h

theorem idResolve_none (T : STy) (work : List StructVal)
    (attributes : List (String × Value)) (v0 : StructVal)
    (h : idResolve T work attributes = .ok (none, v0)) :
    v0 = zeroVal T ∧
    ((lookupKey attributes "id" = none) ∨
      (lookupKey attributes "id" = some .null) ∨
      (∃ id, lookupKey attributes "id" = some (.str id) ∧
        findByID work id = .ok none)) := by
  rw [idResolve_def] at h
  split at h
  · rename_i hlk
    simp only [Except.ok.injEq, Prod.mk.injEq] at h
    exact ⟨h.2.symm, Or.inr (Or.inl hlk)⟩
  · rename_i id hlk
    split at h
    · simp at h
    · rename_i hf
      simp only [Except.ok.injEq, Prod.mk.injEq] at h
      exact ⟨h.2.symm, Or.inr (Or.inr ⟨id, hlk, hf⟩)⟩
    · cases h
  · cases h
  · rename_i hlk
    simp only [Except.ok.injEq, Prod.mk.injEq] at h
    exact ⟨h.2.symm, Or.inl hlk⟩

/-- Case analysis on a successful `processRecord`: either a non-null id
matched an existing element and the key loop ran against that slot, or the
key loop ran against a fresh zero value which was then appended. -/
theorem pr_cases (oracle : Nat → Bool) (T : STy) (st : UState)
    (attributes : List (String × Value)) (st1 : UState)
    (h : processRecord oracle T st attributes = .ok st1) :
    (∃ id i obj st2 val1,
      lookupKey attributes "id" = some (.str id) ∧
      findByID st.work id = .ok (some (i, obj)) ∧
      processKeys T st (some i) obj attributes = .ok st2 val1 ∧ st1 = st2)
    ∨ (∃ val1,
      ((lookupKey attributes "id" = none) ∨
        (lookupKey attributes "id" = some .null) ∨
        (∃ id, lookupKey attributes "id" = some (.str id) ∧
          findByID st.work id = .ok none)) ∧
      processKeys T st none (zeroVal T) attributes = .ok st val1 ∧
      st1 = st.push oracle val1) := by
  rw [processRecord_def] at h
  split at h
  · cases h
  · rename_i i obj hres
    obtain ⟨id, hlk, hf⟩ := idResolve_some T st.work attributes i obj hres
    split at h
    · rename_i st2 val1 hpk
      cases h
      exact Or.inl ⟨id, i, obj, st1, val1, hlk, hf, hpk, rfl⟩
    · cases h
    · cases h
  · rename_i v0 hres
    obtain ⟨hv0, hcond⟩ := idResolve_none T st.work attributes v0 hres
    subst hv0
    split at h
    · rename_i st2 val1 hpk
      cases h
      have hst : st2 = st := pk_none_state T attributes st (zeroVal T) st2 val1 hpk
      subst hst
      exact Or.inr ⟨val1, hcond, hpk, rfl⟩
    · cases h
    · cases h

/-! ## Well-formedness of struct values through the key loop -/

theorem kind_zero (k : FKind) : (FKind.zero k).kind = k := by
  cases k <;> rfl

theorem wf_zeroVal (T : STy) : WFStruct T (zeroVal T) := by
  unfold WFStruct zeroVal
  have h : ∀ (l : List (String × FKind)),
      (l.map (fun p => (p.1, p.2.zero))).map (fun p => (p.1, p.2.kind)) = l := by
    intro l
    induction l with
    | nil => rfl
    | cons p rest ih => cases p; simp [ih, kind_zero]
  exact h T.fields

theorem lookupField_map :
    ∀ (sv : StructVal) (f : String),
      lookupField (sv.map (fun p => (p.1, p.2.kind))) f =
        (fieldByName sv f).map FieldVal.kind
  | [], _ => rfl
  | (g, a) :: rest, f => by
    simp only [List.map_cons, lookupField, fieldByName]
    by_cases hg : g = f
    · rw [if_pos hg, if_pos hg]; rfl
    · rw [if_neg hg, if_neg hg]; exact lookupField_map rest f

theorem wf_fieldByName (T : STy) (sv : StructVal) (f : String)
    (h : WFStruct T sv) :
    (fieldByName sv f).map FieldVal.kind = lookupField T.fields f := by
  rw [← h, lookupField_map]

theorem wf_fieldByName_none (T : STy) (sv : StructVal) (f : String)
    (h : WFStruct T sv) (hmiss : hasField T f = false) :
    fieldByName sv f = none := by
  have h2 := wf_fieldByName T sv f h
  unfold hasField at hmiss
  cases hlk : lookupField T.fields f with
  | some k => rw [hlk] at hmiss; cases hmiss
  | none =>
    rw [hlk] at h2
    cases hf : fieldByName sv f with
    | none => rfl
    | some a => rw [hf] at h2; cases h2

theorem setFieldByName_absent :
    ∀ (sv : StructVal) (f : String) (a : FieldVal),
      fieldByName sv f = none → setFieldByName sv f a = sv
  | [], _, _, _ => rfl
  | (g, b) :: rest, f, a, h => by
    simp only [fieldByName] at h
    simp only [setFieldByName]
    by_cases hg : g = f
    · rw [if_pos hg] at h; cases h
    · rw [if_neg hg] at h
      rw [if_neg hg, setFieldByName_absent rest f a h]

theorem wf_setFieldByName :
    ∀ (sv : StructVal) (f : String) (a b : FieldVal),
      fieldByName sv f = some b → a.kind = b.kind →
      (setFieldByName sv f a).map (fun p => (p.1, p.2.kind)) =
        sv.map (fun p => (p.1, p.2.kind))
  | [], _, _, _, h, _ => by cases h
  | (g, c) :: rest, f, a, b, h, hk => by
    simp only [fieldByName] at h
    simp only [setFieldByName]
    by_cases hg : g = f
    · rw [if_pos hg] at h
      rw [if_pos hg]
      simp only [List.map_cons]
      rw [← Option.some.inj h] at hk
      rw [hk]
    · rw [if_neg hg] at h
      rw [if_neg hg]
      simp only [List.map_cons]
      rw [wf_setFieldByName rest f a b h hk]

theorem wf_set (T : STy) (sv : StructVal) (f : String) (a b : FieldVal)
    (hwf : WFStruct T sv) (h : fieldByName sv f = some b)
    (hk : a.kind = b.kind) : WFStruct T (setFieldByName sv f a) := by
  unfold WFStruct
  rw [wf_setFieldByName sv f a b h hk]
  exact hwf

theorem assignValue_kind (k : FKind) (v : Value) (a : FieldVal)
    (h : assignValue k v = some a) : a.kind = k := by
  cases k <;> cases v <;> simp only [assignValue] at h <;> cases h <;> rfl

theorem setIDValue_ok (k : Option FKind) (v : Value) (a : FieldVal)
    (h : setIDValue k v = .ok a) : ∃ k0, k = some k0 ∧ a.kind = k0 := by
  cases k with
  | none => cases h
  | some k0 =>
    cases k0 with
    | fstr =>
      refine ⟨.fstr, rfl, ?_⟩
      simp only [setIDValue] at h
      cases hs : setIDValueStr v with
      | error e => rw [hs] at h; cases h
      | ok s =>
        rw [hs] at h
        have h2 : Except.ok (FieldVal.vstr s) = Except.ok a := h
        rw [← Except.ok.inj h2]
        rfl
    | fint =>
      refine ⟨.fint, rfl, ?_⟩
      simp only [setIDValue] at h
      cases hs : setIDValueInt v with
      | error e => rw [hs] at h; cases h
      | ok n =>
        rw [hs] at h
        have h2 : Except.ok (FieldVal.vint n) = Except.ok a := h
        rw [← Except.ok.inj h2]
        rfl
    | fstrList => cases h
    | fintList => cases h

theorem wf_setObjectID (T : STy) (sv sv1 : StructVal) (id : String)
    (hwf : WFStruct T sv) (h : setObjectID sv id = .ok sv1) :
    WFStruct T sv1 := by
  unfold setObjectID at h
  cases hs : setIDValue ((fieldByName sv "ID").map FieldVal.kind)
      (.str id) with
  | error e => rw [hs] at h; cases h
  | ok a =>
    rw [hs] at h
    cases h
    obtain ⟨k0, hk0, hak⟩ := setIDValue_ok _ _ _ hs
    cases hf : fieldByName sv "ID" with
    | none => rw [hf] at hk0; cases hk0
    | some b =>
      rw [hf] at hk0
      simp only [Option.map_some', Option.some.injEq] at hk0
      exact wf_set T sv "ID" a b hwf hf (hk0 ▸ hak)

theorem wf_unmarshalLinks (T : STy) :
    ∀ (lm : List (String × Value)) (val val1 : StructVal),
      WFStruct T val → unmarshalLinks val lm = .ok val1 →
      WFStruct T val1
  | [], val, val1, hwf, h => by
    cases h
    exact hwf
  | (linkName, linkObj) :: rest, val, val1, hwf, h => by
    cases linkObj with
    | arr links =>
      rw [unmarshalLinks_cons_arr] at h
      cases hf : fieldByName val (dejsonify linkName ++ "IDs") with
      | none => rw [hf] at h; cases h
      | some b =>
        rw [hf] at h
        cases b with
        | vstr s => cases h
        | vint n => cases h
        | vstrList old =>
          cases hm : links.mapM setIDValueStr with
          | error e => rw [hm] at h; cases h
          | ok ss =>
            rw [hm] at h
            exact wf_unmarshalLinks T rest _ val1
              (wf_set T val _ (.vstrList ss) (.vstrList old) hwf hf rfl) h
        | vintList old =>
          cases hm : links.mapM setIDValueInt with
          | error e => rw [hm] at h; cases h
          | ok ns =>
            rw [hm] at h
            exact wf_unmarshalLinks T rest _ val1
              (wf_set T val _ (.vintList ns) (.vintList old) hwf hf rfl) h
    | str s =>
      rw [unmarshalLinks_cons_str] at h
      cases hs : setIDValue
          ((fieldByName val (dejsonify linkName ++ "ID")).map FieldVal.kind)
          (.str s) with
      | error e => rw [hs] at h; cases h
      | ok a =>
        rw [hs] at h
        obtain ⟨k0, hk0, hak⟩ := setIDValue_ok _ _ _ hs
        cases hf : fieldByName val (dejsonify linkName ++ "ID") with
        | none => rw [hf] at hk0; cases hk0
        | some b =>
          rw [hf] at hk0
          simp only [Option.map_some', Option.some.injEq] at hk0
          exact wf_unmarshalLinks T rest _ val1
            (wf_set T val _ a b hwf hf (hk0 ▸ hak)) h
    | null => cases h
    | bool b => cases h
    | num n => cases h
    | obj fs => cases h

theorem applyKey_links_obj (T : STy) (val : StructVal)
    (linksMap : List (String × Value)) :
    applyKey T val "links" (.obj linksMap) =
      match unmarshalLinks val linksMap with
      | .ok val1 => .ok val1
      | .error e => .err e := rfl

theorem applyKey_id_str (T : STy) (val : StructVal) (s : String) :
    applyKey T val "id" (.str s) =
      match setObjectID val s with
      | .ok val1 => .ok val1
      | .error e => .err e := rfl

theorem applyKey_default (T : STy) (val : StructVal) (k : String) (v : Value)
    (h1 : k ≠ "links") (h2 : k ≠ "id") :
    applyKey T val k v =
      match fieldByName val (dejsonify k) with
      | none =>
        .err ("expected struct " ++ T.name ++ " to have field " ++ dejsonify k)
      | some a =>
        match assignValue a.kind v with
        | some a1 => .ok (setFieldByName val (dejsonify k) a1)
        | none => .fatal "reflect: value is not assignable to field type" := by
  unfold applyKey
  rw [if_neg h1, if_neg h2]

theorem wf_applyKey (T : STy) (val val1 : StructVal) (k : String) (v : Value)
    (hwf : WFStruct T val) (h : applyKey T val k v = .ok val1) :
    WFStruct T val1 := by
  by_cases h1 : k = "links"
  · subst h1
    cases v with
    | obj linksMap =>
      rw [applyKey_links_obj] at h
      cases hl : unmarshalLinks val linksMap with
      | error e => rw [hl] at h; cases h
      | ok val2 =>
        rw [hl] at h
        cases h
        exact wf_unmarshalLinks T linksMap val val1 hwf hl
    | null => cases h
    | bool b => cases h
    | num n => cases h
    | str s => cases h
    | arr xs => cases h
  · by_cases h2 : k = "id"
    · subst h2
      cases v with
      | str s =>
        rw [applyKey_id_str] at h
        cases ho : setObjectID val s with
        | error e => rw [ho] at h; cases h
        | ok val2 =>
          rw [ho] at h
          cases h
          exact wf_setObjectID T val val1 s hwf ho
      | null => cases h
      | bool b => cases h
      | num n => cases h
      | arr xs => cases h
      | obj fs => cases h
    · rw [applyKey_default T val k v h1 h2] at h
      cases hf : fieldByName val (dejsonify k) with
      | none => rw [hf] at h; cases h
      | some a =>
        rw [hf] at h
        have h3 : (match assignValue a.kind v with
            | some a1 => ROut.ok (setFieldByName val (dejsonify k) a1)
            | none =>
              ROut.fatal "reflect: value is not assignable to field type") =
            ROut.ok val1 := h
        cases ha : assignValue a.kind v with
        | none => rw [ha] at h3; cases h3
        | some a1 =>
          rw [ha] at h3
          cases h3
          exact wf_set T val (dejsonify k) a1 a hwf hf
            (assignValue_kind a.kind v a1 ha)

theorem wf_processKeys (T : STy) :
    ∀ (ks : List (String × Value)) (st : UState) (loc : Option Nat)
      (val : StructVal) (st1 : UState) (val1 : StructVal),
      (∀ sv ∈ st.work, WFStruct T sv) → WFStruct T val →
      processKeys T st loc val ks = .ok st1 val1 →
      WFStruct T val1 ∧ ∀ sv ∈ st1.work, WFStruct T sv := by
  intro ks
  induction ks with
  | nil =>
    intro st loc val st1 val1 hall hwf h
    rw [processKeys_nil] at h
    cases h
    exact ⟨hwf, hall⟩
  | cons kv rest ih =>
    intro st loc val st1 val1 hall hwf h
    obtain ⟨k, v⟩ := kv
    rw [processKeys_cons] at h
    cases hak : applyKey T val k v with
    | ok val2 =>
      rw [hak] at h
      have hwf2 := wf_applyKey T val val2 k v hwf hak
      cases loc with
      | none => exact ih st none val2 st1 val1 hall hwf2 h
      | some i =>
        refine ih (st.writeSlot i val2) (some i) val2 st1 val1 ?_ hwf2 h
        intro sv hsv
        simp only [UState.writeSlot] at hsv
        rcases List.mem_or_eq_of_mem_set hsv with hmem | heq
        · exact hall sv hmem
        · rw [heq]; exact hwf2
    | err e => rw [hak] at h; cases h
    | fatal m => rw [hak] at h; cases h

theorem wf_processRecord (oracle : Nat → Bool) (T : STy) (st : UState)
    (attributes : List (String × Value)) (st1 : UState)
    (hall : ∀ sv ∈ st.work, WFStruct T sv)
    (h : processRecord oracle T st attributes = .ok st1) :
    ∀ sv ∈ st1.work, WFStruct T sv := by
  rcases pr_cases oracle T st attributes st1 h with
    ⟨id, i, obj, st2, val1, _, hf, hpk, hst⟩ | ⟨val1, _, hpk, hst⟩
  · subst hst
    obtain ⟨hget, _, _⟩ := findByID_some id st.work i obj hf
    have hobj : WFStruct T obj := hall obj (List.get?_mem hget)
    exact (wf_processKeys T attributes st (some i) obj st1 val1 hall hobj
      hpk).2
  · subst hst
    have hz := wf_zeroVal T
    obtain ⟨hv1, hallv⟩ :=
      wf_processKeys T attributes st none (zeroVal T) st val1 hall hz hpk
    intro sv hsv
    simp only [UState.push, List.mem_append, List.mem_singleton] at hsv
    rcases hsv with hmem | heq
    · exact hallv sv hmem
    · rw [heq]; exact hv1

theorem wf_processModels (oracle : Nat → Bool) (T : STy) (rootName : String) :
    ∀ (ms : List Value) (st : UState) (st1 : UState),
      (∀ sv ∈ st.work, WFStruct T sv) →
      processModels oracle T rootName st ms = .ok st1 →
      ∀ sv ∈ st1.work, WFStruct T sv := by
  intro ms
  induction ms with
  | nil =>
    intro st st1 hall h
    rw [processModels_nil] at h
    cases h
    exact hall
  | cons m rest ih =>
    intro st st1 hall h
    cases m with
    | obj attributes =>
      rw [processModels_cons_obj] at h
      cases hpr : processRecord oracle T st attributes with
      | ok st2 =>
        rw [hpr] at h
        exact ih st2 st1 (wf_processRecord oracle T st attributes st2 hall hpr) h
      | err e st2 => rw [hpr] at h; cases h
      | fatal msg => rw [hpr] at h; cases h
    | null => cases h
    | bool b => cases h
    | num n => cases h
    | str s => cases h
    | arr xs => cases h

/-! ## Splitting the key loop and the record loop -/

theorem pk_append (T : STy) :
    ∀ (ks1 ks2 : List (String × Value)) (st : UState) (loc : Option Nat)
      (val : StructVal),
      processKeys T st loc val (ks1 ++ ks2) =
        match processKeys T st loc val ks1 with
        | .ok st1 val1 => processKeys T st1 loc val1 ks2
        | .err e st1 => .err e st1
        | .fatal m => .fatal m := by
  intro ks1
  induction ks1 with
  | nil => intro ks2 st loc val; rfl
  | cons kv rest ih =>
    intro ks2 st loc val
    obtain ⟨k, v⟩ := kv
    rw [List.cons_append, processKeys_cons, processKeys_cons]
    cases hak : applyKey T val k v with
    | ok val2 =>
      cases loc with
      | none => exact ih ks2 st none val2
      | some i => exact ih ks2 (st.writeSlot i val2) (some i) val2
    | err e => rfl
    | fatal m => rfl

theorem pm_append (oracle : Nat → Bool) (T : STy) (rootName : String) :
    ∀ (ms1 ms2 : List Value) (st : UState),
      processModels oracle T rootName st (ms1 ++ ms2) =
        match processModels oracle T rootName st ms1 with
        | .ok st1 => processModels oracle T rootName st1 ms2
        | .err e st1 => .err e st1
        | .fatal m => .fatal m := by
  intro ms1
  induction ms1 with
  | nil => intro ms2 st; rfl
  | cons m rest ih =>
    intro ms2 st
    cases m with
    | obj attributes =>
      rw [List.cons_append, processModels_cons_obj, processModels_cons_obj]
      cases hpr : processRecord oracle T st attributes with
      | ok st1 => exact ih ms2 st1
      | err e st1 => rfl
      | fatal msg => rfl
    | null => rfl
    | bool b => rfl
    | num n => rfl
    | str s => rfl
    | arr xs => rfl

/-! ## Theorems -/

/-- Claim C1: every record object processed against the working slice
either carries a non-null string id matching an existing element — then the
first matching element (all earlier elements have a different identifier)
is updated in place, the slice length is unchanged and no other slot is
touched — or it carries no id (or a null one, or one matching no element) —
then the key loop populates a freshly zero-valued struct which is appended,
and no existing element is modified. -/
theorem upsert_merge_or_append (oracle : Nat → Bool) (T : STy) (st : UState)
    (attributes : List (String × Value)) (st1 : UState)
    (h : processRecord oracle T st attributes = .ok st1) :
    (∃ id i obj,
      lookupKey attributes "id" = some (.str id) ∧
      findByID st.work id = .ok (some (i, obj)) ∧
      st.work.get? i = some obj ∧ idFromObject obj = .ok id ∧
      (∀ j, j < i → ∀ o, st.work.get? j = some o →
        idFromObject o ≠ .ok id) ∧
      st1.work.length = st.work.length ∧
      (∀ j, j ≠ i → st1.work.get? j = st.work.get? j))
    ∨ (∃ val1,
      ((lookupKey attributes "id" = none) ∨
        (lookupKey attributes "id" = some .null) ∨
        (∃ id, lookupKey attributes "id" = some (.str id) ∧
          findByID st.work id = .ok none)) ∧
      processKeys T st none (zeroVal T) attributes = .ok st val1 ∧
      st1.work = st.work ++ [val1]) := by
  rcases pr_cases oracle T st attributes st1 h with
    ⟨id, i, obj, st2, val1, hlk, hf, hpk, hst⟩ | ⟨val1, hcond, hpk, hst⟩
  · subst hst
    obtain ⟨hget, hid, hpre⟩ := findByID_some id st.work i obj hf
    obtain ⟨hlen, _, _, hframe⟩ :=
      pk_some_frame T attributes st obj i st1 val1 hpk
    exact Or.inl ⟨id, i, obj, hlk, hf, hget, hid, hpre, hlen, hframe⟩
  · subst hst
    exact Or.inr ⟨val1, hcond, hpk, rfl⟩

/-- Witness for claim C1 at a concrete input: a record object with no id,
processed against an empty working slice, takes the append branch. -/
theorem upsert_merge_or_append_witness :
    (∃ id i obj,
      lookupKey attrsC1 "id" = some (.str id) ∧
      findByID stC1.work id = .ok (some (i, obj)) ∧
      stC1.work.get? i = some obj ∧ idFromObject obj = .ok id ∧
      (∀ j, j < i → ∀ o, stC1.work.get? j = some o →
        idFromObject o ≠ .ok id) ∧
      stC1done.work.length = stC1.work.length ∧
      (∀ j, j ≠ i → stC1done.work.get? j = stC1.work.get? j))
    ∨ (∃ val1,
      ((lookupKey attrsC1 "id" = none) ∨
        (lookupKey attrsC1 "id" = some .null) ∨
        (∃ id, lookupKey attrsC1 "id" = some (.str id) ∧
          findByID stC1.work id = .ok none)) ∧
      processKeys PostT stC1 none (zeroVal PostT) attrsC1 = .ok stC1 val1 ∧
      stC1done.work = stC1.work ++ [val1]) :=
  upsert_merge_or_append (fun _ => false) PostT stC1 attrsC1 stC1done rfl

/-- Claim C9: a links entry whose value is a single string, naming a
relationship whose `dejsonify(name) ++ "ID"` field does not exist on the
working struct, makes the links resolver fail with a descriptive returned
error (the identifier setter rejects the missing field slot) rather than
succeed silently or abort. -/
theorem to_one_unknown_relationship_error (val : StructVal) (name s : String)
    (rest : List (String × Value))
    (h : fieldByName val (dejsonify name ++ "ID") = none) :
    unmarshalLinks val ((name, Value.str s) :: rest) =
      .error "expected ID field to be of type int or string" := by
  rw [unmarshalLinks_cons_str, h]
  rfl

/-- Witness for claim C9 at a concrete input: `elem42` has no `AuthorID`
field, so the `author` to-one entry errs. -/
theorem to_one_unknown_relationship_error_witness :
    unmarshalLinks elem42 [("author", Value.str "9")] =
      .error "expected ID field to be of type int or string" :=
  to_one_unknown_relationship_error elem42 "author" "9" [] rfl

/-- Claim C10: whenever `Unmarshal` returns an error, the caller's
destination has exactly its pre-call length: appended elements become
visible only on success, because the working slice header is written back
only on the success path. -/
theorem errored_caller_length (oracle : Nat → Bool) (T : STy)
    (ctx : List (String × Value)) (dst : List StructVal) (e : String)
    (final : List StructVal)
    (h : Unmarshal oracle ctx (.ptrToSliceOfStruct T dst) = .errored e final) :
    final.length = dst.length := by
  rw [Unmarshal_slice] at h
  cases hu : unmarshalInto oracle T ctx
      { caller := dst, work := dst, shared := true, appends := 0 } with
  | ok st => rw [hu] at h; cases h
  | fatal msg => rw [hu] at h; cases h
  | err e1 stE =>
    rw [hu] at h
    cases h
    rw [unmarshalInto_def] at hu
    split at hu
    · cases hu; rfl
    · cases hu; rfl
    · rename_i models hroot
      have hc := pm_callerLen oracle T (pluralize (jsonify T.name)) models
        { caller := dst, work := dst, shared := true, appends := 0 }
      rw [hu] at hc
      exact hc
    · cases hu; rfl

/-- Witness for claim C10 at a concrete input: a record whose id is not a
string errors and leaves the one-element destination at length one. -/
theorem errored_caller_length_witness :
    ([elem42] : List StructVal).length = ([elem42] : List StructVal).length :=
  errored_caller_length (fun _ => false) PostT ctxC10 [elem42]
    "id must be a string" [elem42] rfl

/-- Claim C6, amended: a links entry whose value is a sequence resolves to
the field `dejsonify(name) ++ "IDs"` (for the key `tags` that is `TagsIDs`,
not `TagIDs`); when that field exists with a string or integer slice kind,
it is replaced wholesale by a newly built sequence of exactly the incoming
sequence's length, computed from the incoming strings alone and so
independent of the field's prior contents — never appended to. -/
theorem to_many_wholesale_replacement (val : StructVal) (name : String)
    (xs : List Value) (rest : List (String × Value)) :
    (∀ old ss,
      fieldByName val (dejsonify name ++ "IDs") = some (.vstrList old) →
      xs.mapM setIDValueStr = .ok ss →
      unmarshalLinks val ((name, Value.arr xs) :: rest) =
        unmarshalLinks
          (setFieldByName val (dejsonify name ++ "IDs") (.vstrList ss))
          rest ∧
      ss.length = xs.length) ∧
    (∀ old ns,
      fieldByName val (dejsonify name ++ "IDs") = some (.vintList old) →
      xs.mapM setIDValueInt = .ok ns →
      unmarshalLinks val ((name, Value.arr xs) :: rest) =
        unmarshalLinks
          (setFieldByName val (dejsonify name ++ "IDs") (.vintList ns))
          rest ∧
      ns.length = xs.length) := by
  constructor
  · intro old ss hf hmap
    rw [unmarshalLinks_cons_arr, hf, hmap]
    exact ⟨rfl, mapM_except_length setIDValueStr xs ss hmap⟩
  · intro old ns hf hmap
    rw [unmarshalLinks_cons_arr, hf, hmap]
    exact ⟨rfl, mapM_except_length setIDValueInt xs ns hmap⟩

/-- Witness for claim C6 at concrete inputs: a prior `TagsIDs` of
`["1","2"]` with entry `tags: ["3"]` becomes exactly `["3"]`, and a prior
integer-typed `AuthorsIDs` of `[5]` with entry `authors: ["7"]` becomes
`[7]`. -/
theorem to_many_wholesale_replacement_witness :
    (unmarshalLinks [("TagsIDs", FieldVal.vstrList ["1", "2"])]
        [("tags", Value.arr [Value.str "3"])] =
      unmarshalLinks
        (setFieldByName [("TagsIDs", FieldVal.vstrList ["1", "2"])]
          (dejsonify "tags" ++ "IDs") (.vstrList ["3"])) [] ∧
      (["3"] : List String).length = ([Value.str "3"] : List Value).length) ∧
    (unmarshalLinks [("AuthorsIDs", FieldVal.vintList [5])]
        [("authors", Value.arr [Value.str "7"])] =
      unmarshalLinks
        (setFieldByName [("AuthorsIDs", FieldVal.vintList [5])]
          (dejsonify "authors" ++ "IDs") (.vintList [7])) [] ∧
      ([7] : List Int).length = ([Value.str "7"] : List Value).length) :=
  ⟨(to_many_wholesale_replacement
      [("TagsIDs", FieldVal.vstrList ["1", "2"])] "tags"
      [Value.str "3"] []).1 ["1", "2"] ["3"] rfl rfl,
   (to_many_wholesale_replacement
      [("AuthorsIDs", FieldVal.vintList [5])] "authors"
      [Value.str "7"] []).2 [5] [7] rfl rfl⟩

/-- Claim C2: with a destination holding exactly one element whose
identifier is `"42"`, unmarshaling a document whose single record object
has `"id": "42"` and one changed attribute succeeds; the destination still
has exactly one element, the named attribute holds the new value, and every
field not named by a key of the record object keeps its previous value. -/
theorem merge_by_identifier_frame (oracle : Nat → Bool) :
    Unmarshal oracle ctxC2 (.ptrToSliceOfStruct PostT [elem42]) =
      .succeeded [elem42new] := rfl

/-- Claim C7: a document lacking the expected pluralized root key yields a
descriptive error naming that key, and the caller's destination is left
completely unmodified. -/
theorem missing_root_key_unmodified (oracle : Nat → Bool) (T : STy)
    (ctx : List (String × Value)) (dst : List StructVal)
    (h : lookupKey ctx (pluralize (jsonify T.name)) = none) :
    Unmarshal oracle ctx (.ptrToSliceOfStruct T dst) =
      .errored ("expected root document to include a " ++
        pluralize (jsonify T.name) ++ " key but it did not") dst := by
  simp only [Unmarshal, unmarshalInto, h]

/-- Witness for claim C7 at a concrete input: an empty document against a
one-element destination errors and returns that destination unchanged. -/
theorem missing_root_key_unmodified_witness :
    Unmarshal (fun _ => false) [] (.ptrToSliceOfStruct PostT [elem42]) =
      .errored "expected root document to include a posts key but it did not"
        [elem42] :=
  missing_root_key_unmodified (fun _ => false) PostT [] [elem42] rfl

/-- Claim C4, counterexample: the first record object of `ctxC4` carries no
id and is appended to the working slice, the second fails with an unknown
field; yet the caller's destination after the error is still empty, so the
appended record did not remain applied to the caller's destination. -/
theorem error_append_not_applied_counterexample :
    processModels (fun _ => false) PostT "posts"
        { caller := [], work := [], shared := true, appends := 0 }
        [Value.obj [("title", .str "a")]] =
      .ok { caller := [], work := [elemC4], shared := true, appends := 1 } ∧
    Unmarshal (fun _ => false) ctxC4 (.ptrToSliceOfStruct PostT []) =
      .errored "expected struct Post to have field Bogus" [] :=
  ⟨by decide, rfl⟩

/-- Claim C4, amended: when Unmarshal returns an error partway through a
document, record objects appended before the failing one are never visible
to the caller — the caller keeps its pre-call length — and record objects
merged in place into existing destination elements before the failing one
remain applied to the caller's destination, with no rollback, provided the
backing array is still shared at the failure point (no preceding append has
reallocated it): then the caller's view is exactly the caller-length front
of the working slice at the failure point.  A reallocating append before a
merge detaches the working slice, and such a merge too is lost to the
caller. -/
theorem error_no_rollback_of_merges (oracle : Nat → Bool) (T : STy)
    (ctx : List (String × Value)) (dst : List StructVal) (e : String)
    (res : List StructVal)
    (h : Unmarshal oracle ctx (.ptrToSliceOfStruct T dst) = .errored e res) :
    res.length = dst.length ∧
    ∃ st1 : UState,
      unmarshalInto oracle T ctx
        { caller := dst, work := dst, shared := true, appends := 0 } =
        .err e st1 ∧
      res = st1.caller ∧
      (st1.shared = true → res = st1.work.take dst.length) := by
  rw [Unmarshal_slice] at h
  cases hu : unmarshalInto oracle T ctx
      { caller := dst, work := dst, shared := true, appends := 0 } with
  | ok st => rw [hu] at h; cases h
  | fatal msg => rw [hu] at h; cases h
  | err e1 stE =>
    rw [hu] at h
    cases h
    have hboth : stE.caller.length = dst.length ∧ sharedView stE := by
      rw [unmarshalInto_def] at hu
      split at hu
      · cases hu; exact ⟨rfl, sharedView_init dst⟩
      · cases hu; exact ⟨rfl, sharedView_init dst⟩
      · rename_i models hroot
        have hc := pm_callerLen oracle T (pluralize (jsonify T.name)) models
          { caller := dst, work := dst, shared := true, appends := 0 }
        have hs := sv_pm oracle T (pluralize (jsonify T.name)) models
          { caller := dst, work := dst, shared := true, appends := 0 }
          (sharedView_init dst)
        rw [hu] at hc hs
        exact ⟨hc, hs⟩
      · cases hu; exact ⟨rfl, sharedView_init dst⟩
    refine ⟨hboth.1, stE, rfl, rfl, ?_⟩
    intro hsh
    have hc := hboth.2 hsh
    rw [hboth.1] at hc
    exact hc

/-- Witness for claim C4 at a concrete input: the document `ctxC4b` merges
its first record into `elem42` in place and fails on the second; the error
state is still shared, so the caller sees exactly the merged element
`elem42new`, while its length stays one. -/
theorem error_no_rollback_of_merges_witness :
    ([elem42new] : List StructVal).length =
      ([elem42] : List StructVal).length ∧
    ∃ st1 : UState,
      unmarshalInto (fun _ => false) PostT ctxC4b
        { caller := [elem42], work := [elem42], shared := true,
          appends := 0 } =
        .err "expected struct Post to have field Bogus" st1 ∧
      [elem42new] = st1.caller ∧
      (st1.shared = true →
        [elem42new] = st1.work.take ([elem42] : List StructVal).length) :=
  error_no_rollback_of_merges (fun _ => false) PostT ctxC4b [elem42]
    "expected struct Post to have field Bogus" [elem42new] rfl

/-- Claim C5, counterexample: a document whose record object carries no
`"id"` appends a fresh element on every pass, so unmarshaling it twice
yields a different destination than unmarshaling it once. -/
theorem unmarshal_twice_counterexample :
    Unmarshal (fun _ => false) ctxC5 (.ptrToSliceOfStruct PostT []) =
      .succeeded [elemC5] ∧
    Unmarshal (fun _ => false) ctxC5 (.ptrToSliceOfStruct PostT [elemC5]) =
      .succeeded [elemC5, elemC5] ∧
    [elemC5, elemC5] ≠ [elemC5] :=
  ⟨rfl, rfl, by decide⟩

/-- Claim C8, counterexample: an argument satisfying the caller contract (a
non-nil pointer to a slice of structs) can still abort rather than return
an error: assigning a record attribute whose dynamic type is not assignable
to the target field is a reflect-level fatal abort, although it is a data
problem and not a contract violation. -/
theorem valid_arg_abort_counterexample :
    Unmarshal (fun _ => false) ctxC8 (.ptrToSliceOfStruct PostT []) =
      .aborted "reflect: value is not assignable to field type" := rfl

/-- Claim C8, amended: every argument that is not a non-nil pointer to a
slice of structs is reported as a fatal abort, never as a returned error;
for satisfying arguments the contract check itself never aborts, but not
every data problem is a returned error — a record attribute value whose
dynamic type is not assignable to its field also aborts. -/
theorem contract_violation_aborts :
    (∀ (oracle : Nat → Bool) (ctx : List (String × Value)),
      Unmarshal oracle ctx .notPtr =
        .aborted "You must pass a pointer to a []struct to Unmarshal()") ∧
    (∀ (oracle : Nat → Bool) (ctx : List (String × Value)),
      Unmarshal oracle ctx .nilPtr =
        .aborted "You must pass a pointer to a []struct to Unmarshal()") ∧
    (∀ (oracle : Nat → Bool) (ctx : List (String × Value)),
      Unmarshal oracle ctx .ptrToNonSlice =
        .aborted "You must pass a pointer to a []struct to Unmarshal()") ∧
    (∀ (oracle : Nat → Bool) (ctx : List (String × Value)),
      Unmarshal oracle ctx .ptrToSliceOfNonStruct =
        .aborted "You must pass a pointer to a []struct to Unmarshal()") ∧
    Unmarshal (fun _ => true) ctxC8 (.ptrToSliceOfStruct PostT []) =
      .aborted "reflect: value is not assignable to field type" :=
  ⟨fun _ _ => rfl, fun _ _ => rfl, fun _ _ => rfl, fun _ _ => rfl, rfl⟩

/-- Claim C6, counterexample: for a destination element with a prior
`TagIDs` of `["1","2"]`, the links entry `tags: ["3"]` resolves to the
field name `dejsonify "tags" ++ "IDs" = "TagsIDs"`, not `TagIDs`, so the
claimed outcome `TagIDs == ["3"]` does not occur: the links resolver fails
with an unknown-relationship-field error and the whole operation returns
that error with the element unchanged. -/
theorem to_many_example_counterexample :
    unmarshalLinks elemTag [("tags", .arr [.str "3"])] =
      .error "expected struct to have a TagsIDs slice" ∧
    Unmarshal (fun _ => false) ctxC6 (.ptrToSliceOfStruct TagT [elemTag]) =
      .errored "expected struct to have a TagsIDs slice" [elemTag] :=
  ⟨rfl, rfl⟩

/-! ## The write-list algebra for idempotence -/

theorem namesOf_set :
    ∀ (sv : StructVal) (f : String) (a : FieldVal),
      namesOf (setFieldByName sv f a) = namesOf sv
  | [], _, _ => rfl
  | (g, b) :: rest, f, a => by
    simp only [setFieldByName]
    by_cases hg : g = f
    · rw [if_pos hg]; rfl
    · rw [if_neg hg]
      simp only [namesOf, List.map_cons]
      have ih := namesOf_set rest f a
      simp only [namesOf] at ih
      rw [ih]

theorem fbn_set :
    ∀ (sv : StructVal) (f : String) (a : FieldVal) (g : String),
      fieldByName (setFieldByName sv f a) g =
        if g = f then (fieldByName sv f).map (fun _ => a)
        else fieldByName sv g
  | [], f, a, g => by
    simp only [setFieldByName, fieldByName, Option.map_none']
    split <;> rfl
  | (g1, b) :: rest, f, a, g => by
    have ih := fbn_set rest f a g
    simp only [setFieldByName, fieldByName]
    by_cases h1 : g1 = f <;> by_cases h2 : g1 = g <;> by_cases h3 : g = f <;>
      simp_all [fieldByName]

theorem namesOf_applyWrites :
    ∀ (ws : List (String × FieldVal)) (x : StructVal),
      namesOf (applyWrites x ws) = namesOf x
  | [], _ => rfl
  | (f, a) :: rest, x => by
    show namesOf (applyWrites (setFieldByName x f a) rest) = namesOf x
    rw [namesOf_applyWrites rest (setFieldByName x f a), namesOf_set]

theorem fbn_none_of_not_mem :
    ∀ (sv : StructVal) (f : String), f ∉ namesOf sv → fieldByName sv f = none
  | [], _, _ => rfl
  | (g, a) :: rest, f, h => by
    simp only [namesOf, List.map_cons, List.mem_cons] at h
    push_neg at h
    simp only [fieldByName]
    rw [if_neg (fun hg => h.1 hg.symm)]
    exact fbn_none_of_not_mem rest f (fun hm => h.2 hm)

theorem struct_ext :
    ∀ (x y : StructVal), namesOf x = namesOf y → (namesOf x).Nodup →
      (∀ f, fieldByName x f = fieldByName y f) → x = y
  | [], [], _, _, _ => rfl
  | [], (g, b) :: ys, hn, _, _ => by cases hn
  | (g, a) :: xs, [], hn, _, _ => by cases hn
  | (g1, a) :: xs, (g2, b) :: ys, hn, hnd, hf => by
    have hn2 : g1 = g2 ∧ namesOf xs = namesOf ys := by
      simp only [namesOf, List.map_cons, List.cons.injEq] at hn
      exact ⟨hn.1, hn.2⟩
    obtain ⟨hg, hns⟩ := hn2
    subst hg
    have hfa := hf g1
    rw [show fieldByName ((g1, a) :: xs) g1 = some a from by
        simp [fieldByName],
      show fieldByName ((g1, b) :: ys) g1 = some b from by
        simp [fieldByName]] at hfa
    cases hfa
    have hnd2 : g1 ∉ namesOf xs ∧ (namesOf xs).Nodup := by
      simp only [namesOf, List.map_cons, List.nodup_cons] at hnd
      exact ⟨hnd.1, hnd.2⟩
    obtain ⟨hnm, hndx⟩ := hnd2
    have hrest : xs = ys := by
      refine struct_ext xs ys hns hndx ?_
      intro f
      by_cases hfg : f = g1
      · subst hfg
        rw [fbn_none_of_not_mem xs f hnm,
          fbn_none_of_not_mem ys f (by unfold namesOf at hns ⊢; rw [← hns]; exact hnm)]
      · have h2 := hf f
        have e1 : fieldByName ((g1, a) :: xs) f = fieldByName xs f := by
          simp only [fieldByName]
          rw [if_neg (fun h : g1 = f => hfg h.symm)]
        have e2 : fieldByName ((g1, a) :: ys) f = fieldByName ys f := by
          simp only [fieldByName]
          rw [if_neg (fun h : g1 = f => hfg h.symm)]
        rw [e1, e2] at h2
        exact h2
    rw [hrest]

theorem lastWrite_append :
    ∀ (ws1 ws2 : List (String × FieldVal)) (f : String),
      lastWrite (ws1 ++ ws2) f =
        match lastWrite ws2 f with
        | some b => some b
        | none => lastWrite ws1 f
  | [], ws2, f => by
    rw [List.nil_append]
    cases h : lastWrite ws2 f with
    | some b => rfl
    | none => rfl
  | (g, a) :: rest, ws2, f => by
    have ih := lastWrite_append rest ws2 f
    show (match lastWrite (rest ++ ws2) f with
      | some b => some b
      | none => if g = f then some a else none) = _
    rw [ih]
    cases h : lastWrite ws2 f with
    | some b => rfl
    | none => rfl

theorem lastWrite_none_of :
    ∀ (ws : List (String × FieldVal)) (f : String),
      (∀ w ∈ ws, w.1 ≠ f) → lastWrite ws f = none
  | [], _, _ => rfl
  | (g, a) :: rest, f, h => by
    show (match lastWrite rest f with
      | some b => some b
      | none => if g = f then some a else none) = none
    rw [lastWrite_none_of rest f (fun w hw => h w (List.mem_cons_of_mem _ hw))]
    rw [if_neg (h (g, a) (List.mem_cons_self _ _))]

theorem fbn_applyWrites :
    ∀ (ws : List (String × FieldVal)) (x : StructVal) (f : String),
      fieldByName (applyWrites x ws) f =
        match fieldByName x f with
        | none => none
        | some c => some ((lastWrite ws f).getD c)
  | [], x, f => by
    show fieldByName x f = _
    cases h : fieldByName x f <;> rfl
  | (g, a) :: rest, x, f => by
    show fieldByName (applyWrites (setFieldByName x g a) rest) f = _
    rw [fbn_applyWrites rest (setFieldByName x g a) f, fbn_set]
    show _ = (match fieldByName x f with
      | none => none
      | some c => some ((match lastWrite rest f with
          | some b => some b
          | none => if g = f then some a else none).getD c))
    by_cases hfg : f = g
    · rw [if_pos hfg]
      subst hfg
      cases hx : fieldByName x f with
      | none => rfl
      | some c =>
        simp only [Option.map_some']
        cases hl : lastWrite rest f with
        | some b => rfl
        | none => simp
    · rw [if_neg hfg]
      cases hx : fieldByName x f with
      | none => rfl
      | some c =>
        cases hl : lastWrite rest f with
        | some b => rfl
        | none =>
          show some (Option.getD none c) = _
          rw [if_neg (fun h : g = f => hfg h.symm)]

theorem applyWrites_append (x : StructVal) (ws1 ws2 : List (String × FieldVal)) :
    applyWrites x (ws1 ++ ws2) = applyWrites (applyWrites x ws1) ws2 := by
  unfold applyWrites
  rw [List.foldl_append]

theorem applyWrites_idem (x : StructVal) (ws : List (String × FieldVal))
    (hnd : (namesOf x).Nodup) :
    applyWrites (applyWrites x ws) ws = applyWrites x ws := by
  refine struct_ext _ _ ?_ ?_ ?_
  · simp only [namesOf_applyWrites]
  · simp only [namesOf_applyWrites]
    exact hnd
  · intro f
    simp only [fbn_applyWrites]
    cases hx : fieldByName x f with
    | none => rfl
    | some c =>
      cases hl : lastWrite ws f with
      | some b => rfl
      | none => rfl

/-! ## Equivalence of the key loop with its write list -/

theorem keysSpec_nil (T : STy) : keysSpec T [] = .ok [] := rfl

theorem keysSpec_cons (T : STy) (k : String) (v : Value)
    (rest : List (String × Value)) :
    keysSpec T ((k, v) :: rest) =
      match applyKeySpec T k v with
      | .ok ws =>
        match keysSpec T rest with
        | .ok ws2 => .ok (ws ++ ws2)
        | .err e => .err e
        | .fatal m => .fatal m
      | .err e => .err e
      | .fatal m => .fatal m := rfl

theorem linksSpec_cons_arr (T : STy) (linkName : String) (links : List Value)
    (rest : List (String × Value)) :
    linksSpec T ((linkName, Value.arr links) :: rest) =
      match lookupField T.fields (dejsonify linkName ++ "IDs") with
      | some .fstrList =>
        match links.mapM setIDValueStr with
        | .ok ss =>
          match linksSpec T rest with
          | .ok ws => .ok ((dejsonify linkName ++ "IDs", .vstrList ss) :: ws)
          | .error e => .error e
        | .error e => .error e
      | some .fintList =>
        match links.mapM setIDValueInt with
        | .ok ns =>
          match linksSpec T rest with
          | .ok ws => .ok ((dejsonify linkName ++ "IDs", .vintList ns) :: ws)
          | .error e => .error e
        | .error e => .error e
      | _ =>
        .error ("expected struct to have a " ++
          (dejsonify linkName ++ "IDs") ++ " slice") := rfl

theorem linksSpec_cons_str (T : STy) (linkName s : String)
    (rest : List (String × Value)) :
    linksSpec T ((linkName, Value.str s) :: rest) =
      match setIDValue (lookupField T.fields (dejsonify linkName ++ "ID"))
          (.str s) with
      | .ok a =>
        match linksSpec T rest with
        | .ok ws => .ok ((dejsonify linkName ++ "ID", a) :: ws)
        | .error e => .error e
      | .error e => .error e := rfl

theorem wf_fieldByName_kind (T : STy) (val : StructVal) (f : String)
    (k : FKind) (hwf : WFStruct T val)
    (hl : lookupField T.fields f = some k) :
    ∃ b, fieldByName val f = some b ∧ b.kind = k := by
  have h := wf_fieldByName T val f hwf
  rw [hl] at h
  cases hb : fieldByName val f with
  | none => rw [hb] at h; cases h
  | some b =>
    rw [hb] at h
    simp only [Option.map_some', Option.some.injEq] at h
    exact ⟨b, rfl, h⟩

theorem wf_fieldByName_none2 (T : STy) (val : StructVal) (f : String)
    (hwf : WFStruct T val) (hl : lookupField T.fields f = none) :
    fieldByName val f = none := by
  have h := wf_fieldByName T val f hwf
  rw [hl] at h
  cases hb : fieldByName val f with
  | none => rfl
  | some b => rw [hb] at h; cases h

theorem kind_vstrList (b : FieldVal) (h : b.kind = .fstrList) :
    ∃ xs, b = .vstrList xs := by
  cases b with
  | vstrList xs => exact ⟨xs, rfl⟩
  | vstr s => cases h
  | vint n => cases h
  | vintList ns => cases h

theorem kind_vintList (b : FieldVal) (h : b.kind = .fintList) :
    ∃ xs, b = .vintList xs := by
  cases b with
  | vintList xs => exact ⟨xs, rfl⟩
  | vstr s => cases h
  | vint n => cases h
  | vstrList ss => cases h

theorem unmarshalLinks_spec (T : STy) :
    ∀ (lm : List (String × Value)) (val : StructVal), WFStruct T val →
      unmarshalLinks val lm =
        match linksSpec T lm with
        | .ok ws => .ok (applyWrites val ws)
        | .error e => .error e
  | [], val, hwf => rfl
  | (linkName, linkObj) :: rest, val, hwf => by
    cases linkObj with
    | arr links =>
      rw [unmarshalLinks_cons_arr, linksSpec_cons_arr]
      cases hl : lookupField T.fields (dejsonify linkName ++ "IDs") with
      | none =>
        rw [wf_fieldByName_none2 T val _ hwf hl]
      | some k =>
        cases k with
        | fstr =>
          obtain ⟨b, hb, hbk⟩ := wf_fieldByName_kind T val _ _ hwf hl
          cases b with
          | vstr s2 => rw [hb]
          | vint n => cases hbk
          | vstrList xs => cases hbk
          | vintList ns => cases hbk
        | fint =>
          obtain ⟨b, hb, hbk⟩ := wf_fieldByName_kind T val _ _ hwf hl
          cases b with
          | vint n => rw [hb]
          | vstr s2 => cases hbk
          | vstrList xs => cases hbk
          | vintList ns => cases hbk
        | fstrList =>
          obtain ⟨b, hb, hbk⟩ := wf_fieldByName_kind T val _ _ hwf hl
          obtain ⟨old, hold⟩ := kind_vstrList b hbk
          subst hold
          rw [hb]
          cases hm : links.mapM setIDValueStr with
          | error e => rfl
          | ok ss =>
            have hwf2 : WFStruct T
                (setFieldByName val (dejsonify linkName ++ "IDs")
                  (.vstrList ss)) :=
              wf_set T val _ (.vstrList ss) (.vstrList old) hwf hb rfl
            show unmarshalLinks
                (setFieldByName val (dejsonify linkName ++ "IDs")
                  (.vstrList ss)) rest =
              (match (match linksSpec T rest with
                | Except.ok ws =>
                  Except.ok ((dejsonify linkName ++ "IDs",
                    FieldVal.vstrList ss) :: ws)
                | Except.error e => Except.error e) with
              | Except.ok ws => Except.ok (applyWrites val ws)
              | Except.error e => Except.error e)
            rw [unmarshalLinks_spec T rest _ hwf2]
            cases hr : linksSpec T rest with
            | ok ws => rfl
            | error e => rfl
        | fintList =>
          obtain ⟨b, hb, hbk⟩ := wf_fieldByName_kind T val _ _ hwf hl
          obtain ⟨old, hold⟩ := kind_vintList b hbk
          subst hold
          rw [hb]
          cases hm : links.mapM setIDValueInt with
          | error e => rfl
          | ok ns =>
            have hwf2 : WFStruct T
                (setFieldByName val (dejsonify linkName ++ "IDs")
                  (.vintList ns)) :=
              wf_set T val _ (.vintList ns) (.vintList old) hwf hb rfl
            show unmarshalLinks
                (setFieldByName val (dejsonify linkName ++ "IDs")
                  (.vintList ns)) rest =
              (match (match linksSpec T rest with
                | Except.ok ws =>
                  Except.ok ((dejsonify linkName ++ "IDs",
                    FieldVal.vintList ns) :: ws)
                | Except.error e => Except.error e) with
              | Except.ok ws => Except.ok (applyWrites val ws)
              | Except.error e => Except.error e)
            rw [unmarshalLinks_spec T rest _ hwf2]
            cases hr : linksSpec T rest with
            | ok ws => rfl
            | error e => rfl
    | str s =>
      rw [unmarshalLinks_cons_str, linksSpec_cons_str,
        wf_fieldByName T val (dejsonify linkName ++ "ID") hwf]
      cases hs : setIDValue
          (lookupField T.fields (dejsonify linkName ++ "ID")) (.str s) with
      | error e => rfl
      | ok a =>
        obtain ⟨k0, hk0, hak⟩ := setIDValue_ok _ _ _ hs
        obtain ⟨b, hb, hbk⟩ := wf_fieldByName_kind T val _ _ hwf hk0
        have hwf2 : WFStruct T
            (setFieldByName val (dejsonify linkName ++ "ID") a) :=
          wf_set T val _ a b hwf hb (by rw [hak, hbk])
        show unmarshalLinks
            (setFieldByName val (dejsonify linkName ++ "ID") a) rest =
          (match (match linksSpec T rest with
            | Except.ok ws =>
              Except.ok ((dejsonify linkName ++ "ID", a) :: ws)
            | Except.error e => Except.error e) with
          | Except.ok ws => Except.ok (applyWrites val ws)
          | Except.error e => Except.error e)
        rw [unmarshalLinks_spec T rest _ hwf2]
        cases hr : linksSpec T rest with
        | ok ws => rfl
        | error e => rfl
    | null => rfl
    | bool b => rfl
    | num n => rfl
    | obj fs => rfl

theorem applyKeySpec_default (T : STy) (k : String) (v : Value)
    (h1 : k ≠ "links") (h2 : k ≠ "id") :
    applyKeySpec T k v =
      match lookupField T.fields (dejsonify k) with
      | none =>
        .err ("expected struct " ++ T.name ++ " to have field " ++ dejsonify k)
      | some kd =>
        match assignValue kd v with
        | some a => .ok [(dejsonify k, a)]
        | none => .fatal "reflect: value is not assignable to field type" := by
  unfold applyKeySpec
  rw [if_neg h1, if_neg h2]

theorem applyKey_spec (T : STy) (val : StructVal) (k : String) (v : Value)
    (hwf : WFStruct T val) :
    applyKey T val k v =
      match applyKeySpec T k v with
      | .ok ws => .ok (applyWrites val ws)
      | .err e => .err e
      | .fatal m => .fatal m := by
  by_cases h1 : k = "links"
  · subst h1
    cases v with
    | obj linksMap =>
      rw [applyKey_links_obj]
      show _ = (match (match linksSpec T linksMap with
        | .ok ws => ROut.ok ws
        | .error e => ROut.err e) with
        | ROut.ok ws => ROut.ok (applyWrites val ws)
        | ROut.err e => ROut.err e
        | ROut.fatal m => ROut.fatal m)
      rw [unmarshalLinks_spec T linksMap val hwf]
      cases hr : linksSpec T linksMap with
      | ok ws => rfl
      | error e => rfl
    | null => rfl
    | bool b => rfl
    | num n => rfl
    | str s => rfl
    | arr xs => rfl
  · by_cases h2 : k = "id"
    · subst h2
      cases v with
      | str s =>
        rw [applyKey_id_str]
        show _ = (match (match setIDValue (lookupField T.fields "ID")
            (.str s) with
          | .ok a => ROut.ok [(("ID" : String), a)]
          | .error e => ROut.err e) with
          | ROut.ok ws => ROut.ok (applyWrites val ws)
          | ROut.err e => ROut.err e
          | ROut.fatal m => ROut.fatal m)
        unfold setObjectID
        rw [wf_fieldByName T val "ID" hwf]
        cases hs : setIDValue (lookupField T.fields "ID") (.str s) with
        | error e => rfl
        | ok a => rfl
      | null => rfl
      | bool b => rfl
      | num n => rfl
      | arr xs => rfl
      | obj fs => rfl
    · rw [applyKey_default T val k v h1 h2, applyKeySpec_default T k v h1 h2]
      cases hl : lookupField T.fields (dejsonify k) with
      | none => rw [wf_fieldByName_none2 T val _ hwf hl]
      | some kd =>
        obtain ⟨b, hb, hbk⟩ := wf_fieldByName_kind T val _ _ hwf hl
        rw [hb]
        show (match assignValue b.kind v with
          | some a1 => ROut.ok (setFieldByName val (dejsonify k) a1)
          | none =>
            ROut.fatal "reflect: value is not assignable to field type") =
          (match (match assignValue kd v with
            | some a => ROut.ok [(dejsonify k, a)]
            | none =>
              ROut.fatal "reflect: value is not assignable to field type")
              with
          | ROut.ok ws => ROut.ok (applyWrites val ws)
          | ROut.err e => ROut.err e
          | ROut.fatal m => ROut.fatal m)
        rw [hbk]
        cases ha : assignValue kd v with
        | none => rfl
        | some a1 => rfl

theorem processKeys_spec (T : STy) :
    ∀ (ks : List (String × Value)) (st : UState) (loc : Option Nat)
      (val : StructVal),
      WFStruct T val →
      (∀ i, loc = some i → st.work.get? i = some val) →
      (match keysSpec T ks with
       | .ok ws =>
         ∃ st1, processKeys T st loc val ks = .ok st1 (applyWrites val ws) ∧
           st1.work = (match loc with
             | none => st.work
             | some i => st.work.set i (applyWrites val ws))
       | .err e => ∃ st1, processKeys T st loc val ks = .err e st1
       | .fatal m => processKeys T st loc val ks = .fatal m) := by
  intro ks
  induction ks with
  | nil =>
    intro st loc val hwf hloc
    rw [keysSpec_nil]
    refine ⟨st, by rw [processKeys_nil]; rfl, ?_⟩
    cases loc with
    | none => rfl
    | some i => exact (set_of_get_eq st.work i val (hloc i rfl)).symm
  | cons kv rest ih =>
    intro st loc val hwf hloc
    obtain ⟨k, v⟩ := kv
    rw [keysSpec_cons]
    have hak := applyKey_spec T val k v hwf
    cases has : applyKeySpec T k v with
    | fatal m =>
      rw [has] at hak
      rw [processKeys_cons, hak]
    | err e =>
      rw [has] at hak
      refine ⟨st, ?_⟩
      rw [processKeys_cons, hak]
    | ok ws =>
      rw [has] at hak
      have hwf2 : WFStruct T (applyWrites val ws) :=
        wf_applyKey T val (applyWrites val ws) k v hwf hak
      cases loc with
      | none =>
        have ihr := ih st none (applyWrites val ws) hwf2
          (fun i hi => by cases hi)
        cases hks : keysSpec T rest with
        | ok ws2 =>
          rw [hks] at ihr
          obtain ⟨st1, hpk1, hw1⟩ := ihr
          refine ⟨st1, ?_, ?_⟩
          · rw [processKeys_cons, hak, applyWrites_append]
            exact hpk1
          · exact hw1
        | err e =>
          rw [hks] at ihr
          obtain ⟨st1, hpk1⟩ := ihr
          refine ⟨st1, ?_⟩
          rw [processKeys_cons, hak]
          exact hpk1
        | fatal m =>
          rw [hks] at ihr
          rw [processKeys_cons, hak]
          exact ihr
      | some i =>
        have hlt : i < st.work.length := by
          obtain ⟨hlt, _⟩ := List.get?_eq_some.mp (hloc i rfl)
          exact hlt
        have hloc2 : ∀ j, (some i : Option Nat) = some j →
            (st.writeSlot i (applyWrites val ws)).work.get? j =
              some (applyWrites val ws) := by
          intro j hj
          cases hj
          show (st.work.set i (applyWrites val ws)).get? i = _
          exact List.get?_set_eq_of_lt _ hlt
        have ihr := ih (st.writeSlot i (applyWrites val ws)) (some i)
          (applyWrites val ws) hwf2 hloc2
        cases hks : keysSpec T rest with
        | ok ws2 =>
          rw [hks] at ihr
          obtain ⟨st1, hpk1, hw1⟩ := ihr
          refine ⟨st1, ?_, ?_⟩
          · rw [processKeys_cons, hak, applyWrites_append]
            exact hpk1
          · rw [hw1]
            show (st.work.set i (applyWrites val ws)).set i _ = _
            rw [List.set_set, ← applyWrites_append]
        | err e =>
          rw [hks] at ihr
          obtain ⟨st1, hpk1⟩ := ihr
          refine ⟨st1, ?_⟩
          rw [processKeys_cons, hak]
          exact hpk1
        | fatal m =>
          rw [hks] at ihr
          rw [processKeys_cons, hak]
          exact ihr

/-! ## The identifier write of one record object -/

theorem wf_nodup_names (T : STy) (x : StructVal) (hwf : WFStruct T x)
    (hnd : (T.fields.map Prod.fst).Nodup) : (namesOf x).Nodup := by
  have h2 : namesOf x = T.fields.map Prod.fst := by
    show x.map Prod.fst = _
    rw [← hwf, List.map_map]
    rfl
  rw [h2]
  exact hnd

theorem linksSpec_no_ID (T : STy) :
    ∀ (lm : List (String × Value)) (ws : List (String × FieldVal)),
      (∀ e ∈ lm,
        dejsonify e.1 ++ "ID" ≠ "ID" ∧ dejsonify e.1 ++ "IDs" ≠ "ID") →
      linksSpec T lm = .ok ws →
      ∀ w ∈ ws, w.1 ≠ "ID"
  | [], ws, _, h => by
    cases h
    intro w hw
    cases hw
  | (linkName, linkObj) :: rest, ws, hok, h => by
    cases linkObj with
    | arr links =>
      rw [linksSpec_cons_arr] at h
      cases hl : lookupField T.fields (dejsonify linkName ++ "IDs") with
      | none => rw [hl] at h; cases h
      | some k =>
        rw [hl] at h
        cases k with
        | fstr => cases h
        | fint => cases h
        | fstrList =>
          cases hm : links.mapM setIDValueStr with
          | error e => rw [hm] at h; cases h
          | ok ss =>
            rw [hm] at h
            cases hr : linksSpec T rest with
            | error e => rw [hr] at h; cases h
            | ok ws2 =>
              rw [hr] at h
              cases h
              intro w hw
              rcases List.mem_cons.mp hw with hh | ht
              · rw [hh]
                exact (hok (linkName, Value.arr links)
                  (List.mem_cons_self _ _)).2
              · exact linksSpec_no_ID T rest ws2
                  (fun e he => hok e (List.mem_cons_of_mem _ he)) hr w ht
        | fintList =>
          cases hm : links.mapM setIDValueInt with
          | error e => rw [hm] at h; cases h
          | ok ns =>
            rw [hm] at h
            cases hr : linksSpec T rest with
            | error e => rw [hr] at h; cases h
            | ok ws2 =>
              rw [hr] at h
              cases h
              intro w hw
              rcases List.mem_cons.mp hw with hh | ht
              · rw [hh]
                exact (hok (linkName, Value.arr links)
                  (List.mem_cons_self _ _)).2
              · exact linksSpec_no_ID T rest ws2
                  (fun e he => hok e (List.mem_cons_of_mem _ he)) hr w ht
    | str s =>
      rw [linksSpec_cons_str] at h
      cases hs : setIDValue
          (lookupField T.fields (dejsonify linkName ++ "ID")) (.str s) with
      | error e => rw [hs] at h; cases h
      | ok a =>
        rw [hs] at h
        cases hr : linksSpec T rest with
        | error e => rw [hr] at h; cases h
        | ok ws2 =>
          rw [hr] at h
          cases h
          intro w hw
          rcases List.mem_cons.mp hw with hh | ht
          · rw [hh]
            exact (hok (linkName, Value.str s) (List.mem_cons_self _ _)).1
          · exact linksSpec_no_ID T rest ws2
              (fun e he => hok e (List.mem_cons_of_mem _ he)) hr w ht
    | null => cases h
    | bool b => cases h
    | num n => cases h
    | obj fs => cases h

theorem applyKeySpec_links_obj (T : STy) (lm : List (String × Value)) :
    applyKeySpec T "links" (.obj lm) =
      match linksSpec T lm with
      | .ok ws => .ok ws
      | .error e => .err e := rfl

theorem applyKeySpec_no_ID (T : STy) (k : String) (v : Value)
    (ws : List (String × FieldVal)) (hk : k ≠ "id") (hok : keyOK k v)
    (h : applyKeySpec T k v = .ok ws) :
    ∀ w ∈ ws, w.1 ≠ "ID" := by
  by_cases hl : k = "links"
  · subst hl
    cases v with
    | obj lm =>
      have hok2 : ∀ e ∈ lm,
          dejsonify e.1 ++ "ID" ≠ "ID" ∧ dejsonify e.1 ++ "IDs" ≠ "ID" := hok
      rw [applyKeySpec_links_obj] at h
      cases hr : linksSpec T lm with
      | error e => rw [hr] at h; cases h
      | ok ws2 =>
        rw [hr] at h
        cases h
        exact linksSpec_no_ID T lm ws hok2 hr
    | null => cases h
    | bool b => cases h
    | num n => cases h
    | str s => cases h
    | arr xs => cases h
  · have hok2 : dejsonify k ≠ "ID" := by
      unfold keyOK at hok
      rw [if_neg hk, if_neg hl] at hok
      exact hok
    rw [applyKeySpec_default T k v hl hk] at h
    cases hlf : lookupField T.fields (dejsonify k) with
    | none => rw [hlf] at h; cases h
    | some kd =>
      rw [hlf] at h
      have h3 : (match assignValue kd v with
          | some a => ROut.ok [(dejsonify k, a)]
          | none =>
            ROut.fatal "reflect: value is not assignable to field type") =
          ROut.ok ws := h
      cases ha : assignValue kd v with
      | none => rw [ha] at h3; cases h3
      | some a =>
        rw [ha] at h3
        cases h3
        intro w hw
        rcases List.mem_cons.mp hw with hh | ht
        · rw [hh]
          exact hok2
        · cases ht

theorem keysSpec_no_ID (T : STy) :
    ∀ (attrs : List (String × Value)) (ws : List (String × FieldVal)),
      (∀ e ∈ attrs, e.1 ≠ "id" ∧ keyOK e.1 e.2) →
      keysSpec T attrs = .ok ws → ∀ w ∈ ws, w.1 ≠ "ID"
  | [], ws, _, h => by
    cases h
    intro w hw
    cases hw
  | (k, v) :: rest, ws, hok, h => by
    rw [keysSpec_cons] at h
    cases haks : applyKeySpec T k v with
    | err e => rw [haks] at h; cases h
    | fatal m => rw [haks] at h; cases h
    | ok ws1 =>
      rw [haks] at h
      cases hked : keysSpec T rest with
      | err e => rw [hked] at h; cases h
      | fatal m => rw [hked] at h; cases h
      | ok ws2 =>
        rw [hked] at h
        cases h
        intro w hw
        rcases List.mem_append.mp hw with h1 | h2
        · exact applyKeySpec_no_ID T k v ws1
            (hok (k, v) (List.mem_cons_self _ _)).1
            (hok (k, v) (List.mem_cons_self _ _)).2 haks w h1
        · exact keysSpec_no_ID T rest ws2
            (fun e he => hok e (List.mem_cons_of_mem _ he)) hked w h2

theorem applyKeySpec_id (T : STy) (idm : String)
    (hid : lookupField T.fields "ID" = some .fstr) :
    applyKeySpec T "id" (.str idm) = .ok [("ID", .vstr idm)] := by
  have h1 : applyKeySpec T "id" (.str idm) =
      match setIDValue (lookupField T.fields "ID") (.str idm) with
      | .ok a => .ok [("ID", a)]
      | .error e => .err e := rfl
  rw [h1, hid]
  rfl

theorem keysSpec_lastWrite_ID (T : STy)
    (hid : lookupField T.fields "ID" = some .fstr) :
    ∀ (attrs : List (String × Value)) (idm : String)
      (ws : List (String × FieldVal)),
      lookupKey attrs "id" = some (.str idm) →
      (attrs.map Prod.fst).Nodup →
      (∀ e ∈ attrs, keyOK e.1 e.2) →
      keysSpec T attrs = .ok ws →
      lastWrite ws "ID" = some (.vstr idm)
  | [], idm, ws, hlk, _, _, _ => by cases hlk
  | (k, v) :: rest, idm, ws, hlk, hnd, hok, hks => by
    rw [keysSpec_cons] at hks
    by_cases hkid : k = "id"
    · subst hkid
      have hv : v = .str idm := by
        have h2 : some v = some (Value.str idm) := hlk
        exact Option.some.inj h2
      subst hv
      rw [applyKeySpec_id T idm hid] at hks
      cases hked : keysSpec T rest with
      | err e => rw [hked] at hks; cases hks
      | fatal m => rw [hked] at hks; cases hks
      | ok ws2 =>
        rw [hked] at hks
        cases hks
        have hnid : ∀ e ∈ rest, e.1 ≠ "id" ∧ keyOK e.1 e.2 := by
          intro e he
          refine ⟨?_, hok e (List.mem_cons_of_mem _ he)⟩
          intro heid
          simp only [List.map_cons, List.nodup_cons] at hnd
          exact hnd.1 (heid ▸ List.mem_map_of_mem Prod.fst he)
        have hnone : lastWrite ws2 "ID" = none :=
          lastWrite_none_of ws2 "ID" (keysSpec_no_ID T rest ws2 hnid hked)
        rw [lastWrite_append, hnone]
        rfl
    · have hlk2 : lookupKey rest "id" = some (.str idm) := by
        simp only [lookupKey, if_neg hkid] at hlk
        exact hlk
      cases haks : applyKeySpec T k v with
      | err e => rw [haks] at hks; cases hks
      | fatal m => rw [haks] at hks; cases hks
      | ok ws1 =>
        rw [haks] at hks
        cases hked : keysSpec T rest with
        | err e => rw [hked] at hks; cases hks
        | fatal m => rw [hked] at hks; cases hks
        | ok ws2 =>
          rw [hked] at hks
          cases hks
          have hrec := keysSpec_lastWrite_ID T hid rest idm ws2 hlk2
            (List.Nodup.of_cons hnd) (fun e he => hok e (List.mem_cons_of_mem _ he))
            hked
          rw [lastWrite_append, hrec]

theorem wf_idOf (T : STy) (sv : StructVal) (hwf : WFStruct T sv)
    (hid : lookupField T.fields "ID" = some .fstr) :
    ∃ s, fieldByName sv "ID" = some (.vstr s) ∧ idFromObject sv = .ok s := by
  obtain ⟨b, hb, hbk⟩ := wf_fieldByName_kind T sv "ID" .fstr hwf hid
  cases b with
  | vstr s =>
    refine ⟨s, hb, ?_⟩
    unfold idFromObject
    rw [hb]
  | vint n => cases hbk
  | vstrList xs => cases hbk
  | vintList ns => cases hbk

theorem record_idFromObject (T : STy) (x : StructVal)
    (ws : List (String × FieldVal)) (idm : String)
    (hwf : WFStruct T x) (hid : lookupField T.fields "ID" = some .fstr)
    (hlast : lastWrite ws "ID" = some (.vstr idm)) :
    idFromObject (applyWrites x ws) = .ok idm := by
  obtain ⟨s, hb, _⟩ := wf_idOf T x hwf hid
  have h2 : fieldByName (applyWrites x ws) "ID" =
      some ((lastWrite ws "ID").getD (FieldVal.vstr s)) := by
    rw [fbn_applyWrites, hb]
  rw [hlast] at h2
  simp only [Option.getD_some] at h2
  unfold idFromObject
  rw [h2]

theorem findByID_intro (id : String) :
    ∀ (w : List StructVal) (p : Nat) (obj : StructVal),
      (∀ o ∈ w, ∃ s, idFromObject o = .ok s) →
      w.get? p = some obj →
      idFromObject obj = .ok id →
      (∀ j, j < p → ∀ o, w.get? j = some o → idFromObject o ≠ .ok id) →
      findByID w id = .ok (some (p, obj))
  | [], p, obj, _, hget, _, _ => by cases hget
  | x :: rest, p, obj, htot, hget, hid2, hpre => by
    obtain ⟨s, hs⟩ := htot x (List.mem_cons_self x rest)
    cases p with
    | zero =>
      simp only [List.get?_cons_zero, Option.some.injEq] at hget
      subst hget
      have hsid : s = id := by
        rw [hs] at hid2
        exact Except.ok.inj hid2
      subst hsid
      simp [findByID, hs]
    | succ p1 =>
      simp only [List.get?_cons_succ] at hget
      have hx_ne : idFromObject x ≠ .ok id := hpre 0 (Nat.succ_pos p1) x rfl
      have hne : s ≠ id := fun heq => hx_ne (by rw [hs, heq])
      have hrec := findByID_intro id rest p1 obj
        (fun o ho => htot o (List.mem_cons_of_mem x ho)) hget hid2
        (fun j hj o hgo =>
          hpre (j + 1) (Nat.succ_lt_succ hj) o (by simpa using hgo))
      simp [findByID, hs, hne, hrec]

/-! ## One record application, described by its write list -/

theorem get?_concat_ne {α : Type} (l : List α) (v : α) (j : Nat)
    (h : j ≠ l.length) : (l ++ [v]).get? j = l.get? j := by
  by_cases hlt : j < l.length
  · exact List.get?_append hlt
  · have hle : l.length ≤ j := Nat.le_of_not_lt hlt
    have hgt : l.length < j := Nat.lt_of_le_of_ne hle (Ne.symm h)
    rw [List.get?_eq_none.mpr hle, List.get?_eq_none.mpr (by
      rw [List.length_append, List.length_singleton]
      exact hgt)]

/-- A successful `processRecord` on a record object carrying a string id,
with distinct keys none of which writes the identifier field behind the
back of `"id"`: the record's constant write list lands on one slot `p`
whose new value carries the record's id, every other slot is untouched,
all slots before `p` did not match the id, and a matching slot never held
a different id. -/
theorem record_step (oracle : Nat → Bool) (T : STy) (st stA : UState)
    (attributes : List (String × Value)) (idm : String)
    (hid : lookupField T.fields "ID" = some .fstr)
    (hall : ∀ sv ∈ st.work, WFStruct T sv)
    (hlk : lookupKey attributes "id" = some (.str idm))
    (hnd : (attributes.map Prod.fst).Nodup)
    (hok : ∀ e ∈ attributes, keyOK e.1 e.2)
    (h : processRecord oracle T st attributes = .ok stA) :
    ∃ p x ws,
      keysSpec T attributes = .ok ws ∧ WFStruct T x ∧
      stA.work.get? p = some (applyWrites x ws) ∧
      idFromObject (applyWrites x ws) = .ok idm ∧
      (∀ j, j ≠ p → stA.work.get? j = st.work.get? j) ∧
      (∀ j, j < p → ∀ o, st.work.get? j = some o →
        idFromObject o ≠ .ok idm) ∧
      (∀ o, st.work.get? p = some o → idFromObject o = .ok idm) := by
  rcases pr_cases oracle T st attributes stA h with
    ⟨id2, q, objq, st2, v1, hlk2, hf, hpk, hst⟩ | ⟨v1, hcond, hpk, hst⟩
  · rw [hlk] at hlk2
    have hidq : id2 = idm := by
      have h3 := Option.some.inj hlk2
      cases h3
      rfl
    subst hidq
    obtain ⟨hq, hqid, hqpre⟩ := findByID_some id2 st.work q objq hf
    have hwfq : WFStruct T objq := hall objq (List.get?_mem hq)
    have hqlt : q < st.work.length := by
      obtain ⟨hlt, _⟩ := List.get?_eq_some.mp hq
      exact hlt
    have hspec := processKeys_spec T attributes st (some q) objq hwfq
      (fun i hi => by cases hi; exact hq)
    cases hks : keysSpec T attributes with
    | err e =>
      rw [hks] at hspec
      obtain ⟨stE, hE⟩ := hspec
      rw [hpk] at hE
      cases hE
    | fatal m =>
      rw [hks] at hspec
      rw [hpk] at hspec
      cases hspec
    | ok ws =>
      rw [hks] at hspec
      obtain ⟨st1x, hpk2, hw2⟩ := hspec
      rw [hpk] at hpk2
      rw [KOut.ok.injEq] at hpk2
      obtain ⟨hst2a, _⟩ := hpk2
      subst hst
      rw [← hst2a] at hw2
      have hlast := keysSpec_lastWrite_ID T hid attributes id2 ws hlk hnd hok hks
      refine ⟨q, objq, ws, rfl, hwfq, ?_, ?_, ?_, ?_, ?_⟩
      · rw [hw2]
        exact List.get?_set_eq_of_lt _ hqlt
      · exact record_idFromObject T objq ws id2 hwfq hid hlast
      · intro j hj
        rw [hw2]
        exact List.get?_set_ne _ _ (Ne.symm hj)
      · exact hqpre
      · intro o ho
        rw [hq] at ho
        rw [← Option.some.inj ho]
        exact hqid
  · rcases hcond with hnone | hnull | ⟨id3, hlk3, hfnone⟩
    · rw [hlk] at hnone
      cases hnone
    · rw [hlk] at hnull
      cases Option.some.inj hnull
    · rw [hlk] at hlk3
      have hid3 : id3 = idm := by
        have h3 := Option.some.inj hlk3
        cases h3
        rfl
      subst hid3
      have hspec := processKeys_spec T attributes st none (zeroVal T)
        (wf_zeroVal T) (fun i hi => by cases hi)
      cases hks : keysSpec T attributes with
      | err e =>
        rw [hks] at hspec
        obtain ⟨stE, hE⟩ := hspec
        rw [hpk] at hE
        cases hE
      | fatal m =>
        rw [hks] at hspec
        rw [hpk] at hspec
        cases hspec
      | ok ws =>
        rw [hks] at hspec
        obtain ⟨st1x, hpk2, hw2⟩ := hspec
        rw [hpk] at hpk2
        rw [KOut.ok.injEq] at hpk2
        obtain ⟨_, hv1⟩ := hpk2
        subst hst
        subst hv1
        have hlast := keysSpec_lastWrite_ID T hid attributes id3 ws hlk hnd hok hks
        refine ⟨st.work.length, zeroVal T, ws, rfl, wf_zeroVal T, ?_, ?_,
          ?_, ?_, ?_⟩
        · show (st.work ++ [applyWrites (zeroVal T) ws]).get? st.work.length =
            _
          rw [List.get?_concat_length]
        · exact record_idFromObject T (zeroVal T) ws id3 (wf_zeroVal T) hid
            hlast
        · intro j hj
          exact get?_concat_ne st.work _ j hj
        · intro j _ o ho
          exact findByID_none id3 st.work hfnone j o ho
        · intro o ho
          rw [List.get?_eq_none.mpr (Nat.le_refl _)] at ho
          cases ho

theorem recID_obj (attributes : List (String × Value)) (id : String)
    (h : lookupKey attributes "id" = some (.str id)) :
    recID (.obj attributes) = some id := by
  show (match lookupKey attributes "id" with
    | some (Value.str id) => some id
    | _ => none) = some id
  rw [h]

/-- Processing records whose ids differ from `idm` preserves the slot
holding the element with id `idm` and keeps every earlier slot free of that
id. -/
theorem preserve_slot (oracle : Nat → Bool) (T : STy) (rootName : String)
    (hid : lookupField T.fields "ID" = some .fstr) :
    ∀ (rest : List Value) (st st1 : UState) (p : Nat) (elemP : StructVal)
      (idm : String),
      (∀ sv ∈ st.work, WFStruct T sv) →
      (∀ m ∈ rest, recordOK m) →
      (∀ m ∈ rest, recID m ≠ some idm) →
      st.work.get? p = some elemP →
      idFromObject elemP = .ok idm →
      (∀ j, j < p → ∀ o, st.work.get? j = some o →
        idFromObject o ≠ .ok idm) →
      processModels oracle T rootName st rest = .ok st1 →
      st1.work.get? p = some elemP ∧
      (∀ j, j < p → ∀ o, st1.work.get? j = some o →
        idFromObject o ≠ .ok idm) := by
  intro rest
  induction rest with
  | nil =>
    intro st st1 p elemP idm _ _ _ hget _ hpre h
    rw [processModels_nil] at h
    cases h
    exact ⟨hget, hpre⟩
  | cons m ms ih =>
    intro st st1 p elemP idm hall hrec hrid hget hpid hpre h
    have hrm := hrec m (List.mem_cons_self m ms)
    cases m with
    | obj attributes =>
      rw [processModels_cons_obj] at h
      cases hpr : processRecord oracle T st attributes with
      | err e stE => rw [hpr] at h; cases h
      | fatal msg => rw [hpr] at h; cases h
      | ok stA =>
        rw [hpr] at h
        obtain ⟨⟨idr, hlkr⟩, hndk, hokk⟩ := hrm
        have hridr : idr ≠ idm := by
          intro he
          exact (hrid (.obj attributes) (List.mem_cons_self _ _))
            (by rw [recID_obj attributes idr hlkr, he])
        obtain ⟨pr, x, ws, hks, hwfx, hgetA, hidA, hframe, hpreA, hmatch⟩ :=
          record_step oracle T st stA attributes idr hid hall hlkr hndk
            hokk hpr
        have hpne : p ≠ pr := by
          intro he
          subst he
          have h2 := hmatch elemP hget
          rw [hpid] at h2
          exact hridr (Except.ok.inj h2).symm
        have hgetA2 : stA.work.get? p = some elemP := by
          rw [hframe p hpne]
          exact hget
        have hpreA2 : ∀ j, j < p → ∀ o, stA.work.get? j = some o →
            idFromObject o ≠ .ok idm := by
          intro j hj o ho
          by_cases hjr : j = pr
          · subst hjr
            rw [hgetA] at ho
            rw [← Option.some.inj ho, hidA]
            intro hc
            exact hridr (Except.ok.inj hc)
          · rw [hframe j hjr] at ho
            exact hpre j hj o ho
        have hallA : ∀ sv ∈ stA.work, WFStruct T sv :=
          wf_processRecord oracle T st attributes stA hall hpr
        exact ih stA st1 p elemP idm hallA
          (fun m2 hm2 => hrec m2 (List.mem_cons_of_mem _ hm2))
          (fun m2 hm2 => hrid m2 (List.mem_cons_of_mem _ hm2))
          hgetA2 hpid hpreA2 h
    | null => exact hrm.elim
    | bool b => exact hrm.elim
    | num n => exact hrm.elim
    | str s2 => exact hrm.elim
    | arr xs => exact hrm.elim

/-- Reprocessing a record list against the state it produced reproduces
that state: each record finds the element it wrote, and its constant write
list is idempotent. -/
theorem run_twice_aux (T : STy) (rootName : String)
    (hndT : (T.fields.map Prod.fst).Nodup)
    (hid : lookupField T.fields "ID" = some .fstr) :
    ∀ (ms : List Value) (oracle1 oracle2 : Nat → Bool) (st st1 st2 : UState),
      (∀ sv ∈ st.work, WFStruct T sv) →
      (∀ m ∈ ms, recordOK m) →
      ((ms.map recID).Nodup) →
      processModels oracle1 T rootName st ms = .ok st1 →
      st2.work = st1.work →
      ∃ st3, processModels oracle2 T rootName st2 ms = .ok st3 ∧
        st3.work = st1.work := by
  intro ms
  induction ms with
  | nil =>
    intro o1 o2 st st1 st2 hall hrec hids h hw
    rw [processModels_nil] at h
    cases h
    exact ⟨st2, by rw [processModels_nil], hw⟩
  | cons m ms2 ih =>
    intro o1 o2 st st1 st2 hall hrec hids h hw
    have hrm := hrec m (List.mem_cons_self m ms2)
    cases m with
    | obj attrs =>
      rw [processModels_cons_obj] at h
      cases hpr : processRecord o1 T st attrs with
      | err e stE => rw [hpr] at h; cases h
      | fatal msg => rw [hpr] at h; cases h
      | ok stA =>
        rw [hpr] at h
        obtain ⟨⟨idm, hlk⟩, hndk, hokk⟩ := hrm
        obtain ⟨p, x, ws, hks, hwfx, hgetA, hidA, hframeA, hpreA, hmatch⟩ :=
          record_step o1 T st stA attrs idm hid hall hlk hndk hokk hpr
        have hallA := wf_processRecord o1 T st attrs stA hall hpr
        have hndtl : ((ms2.map recID).Nodup) := by
          rw [List.map_cons, List.nodup_cons] at hids
          exact hids.2
        have hrid2 : ∀ m2 ∈ ms2, recID m2 ≠ some idm := by
          intro m2 hm2 he
          rw [List.map_cons, List.nodup_cons] at hids
          apply hids.1
          rw [recID_obj attrs idm hlk, ← he]
          exact List.mem_map_of_mem recID hm2
        have hpreA2 : ∀ j, j < p → ∀ o, stA.work.get? j = some o →
            idFromObject o ≠ .ok idm := by
          intro j hj o ho
          rw [hframeA j (Nat.ne_of_lt hj)] at ho
          exact hpreA j hj o ho
        obtain ⟨hget1, hpre1⟩ := preserve_slot o1 T rootName hid ms2 stA st1
          p (applyWrites x ws) idm hallA
          (fun m2 hm2 => hrec m2 (List.mem_cons_of_mem _ hm2))
          hrid2 hgetA hidA hpreA2 h
        have hall1 : ∀ sv ∈ st1.work, WFStruct T sv :=
          wf_processModels o1 T rootName ms2 stA st1 hallA h
        have hall2 : ∀ sv ∈ st2.work, WFStruct T sv := by
          rw [hw]
          exact hall1
        have hget2 : st2.work.get? p = some (applyWrites x ws) := by
          rw [hw]
          exact hget1
        have hpre2 : ∀ j, j < p → ∀ o, st2.work.get? j = some o →
            idFromObject o ≠ .ok idm := by
          rw [hw]
          exact hpre1
        have hfb : findByID st2.work idm = .ok (some (p, applyWrites x ws)) :=
          findByID_intro idm st2.work p (applyWrites x ws)
            (fun o ho => (wf_idOf T o (hall2 o ho) hid).imp
              (fun s hs => hs.2))
            hget2 hidA hpre2
        have hres : idResolve T st2.work attrs =
            .ok (some p, applyWrites x ws) := by
          rw [idResolve_def, hlk]
          show (match findByID st2.work idm with
            | .ok (some (i, obj)) => Except.ok (some i, obj)
            | .ok none => Except.ok (none, zeroVal T)
            | .error e => Except.error e) = _
          rw [hfb]
        have hwfE : WFStruct T (applyWrites x ws) :=
          hall2 _ (List.get?_mem hget2)
        have hspec := processKeys_spec T attrs st2 (some p) (applyWrites x ws)
          hwfE (fun i hi => by cases hi; exact hget2)
        have hspec2 : ∃ stB,
            processKeys T st2 (some p) (applyWrites x ws) attrs =
              .ok stB (applyWrites (applyWrites x ws) ws) ∧
            stB.work =
              st2.work.set p (applyWrites (applyWrites x ws) ws) := by
          rw [hks] at hspec
          exact hspec
        obtain ⟨stB, hpkB, hwB⟩ := hspec2
        have hidem : applyWrites (applyWrites x ws) ws = applyWrites x ws :=
          applyWrites_idem x ws (wf_nodup_names T x hwfx hndT)
        rw [hidem] at hpkB hwB
        have hwB2 : stB.work = st2.work := by
          rw [hwB]
          exact set_of_get_eq st2.work p (applyWrites x ws) hget2
        have hprB : processRecord o2 T st2 attrs = .ok stB := by
          rw [processRecord_def, hres]
          show (match processKeys T st2 (some p) (applyWrites x ws) attrs with
            | KOut.ok st3 _ => SOut.ok st3
            | KOut.err e st3 => SOut.err e st3
            | KOut.fatal m1 => SOut.fatal m1) = _
          rw [hpkB]
        obtain ⟨st3, hpm3, hw3⟩ := ih o1 o2 stA st1 stB hallA
          (fun m2 hm2 => hrec m2 (List.mem_cons_of_mem _ hm2)) hndtl h
          (hwB2.trans hw)
        refine ⟨st3, ?_, hw3⟩
        rw [processModels_cons_obj, hprB]
        exact hpm3
    | null => exact hrm.elim
    | bool b => exact hrm.elim
    | num n => exact hrm.elim
    | str s2 => exact hrm.elim
    | arr xs => exact hrm.elim

/-- Claim C3: when the record loop reaches a record object one of whose
keys (other than `"id"` and `"links"`) translates via `dejsonify` to a
field the destination struct type does not declare, the whole `Unmarshal`
call returns an error naming both the struct type and the missing field.
The trailing records `post` are universally quantified and absent from the
conclusion: no record object after the failing one is processed, whatever
it contains. -/
theorem unknown_field_error_stops (oracle : Nat → Bool) (T : STy)
    (ctx : List (String × Value)) (dst : List StructVal)
    (pre post : List Value) (attributes kpre krest : List (String × Value))
    (k : String) (v : Value) (st1 st2 : UState) (loc : Option Nat)
    (val0 val1 : StructVal)
    (hwf : ∀ sv ∈ dst, WFStruct T sv)
    (hroot : lookupKey ctx (pluralize (jsonify T.name)) =
      some (.arr (pre ++ Value.obj attributes :: post)))
    (hpre : processModels oracle T (pluralize (jsonify T.name))
      { caller := dst, work := dst, shared := true, appends := 0 } pre =
      .ok st1)
    (hres : idResolve T st1.work attributes = .ok (loc, val0))
    (hsplit : attributes = kpre ++ (k, v) :: krest)
    (hkpre : processKeys T st1 loc val0 kpre = .ok st2 val1)
    (hk1 : k ≠ "links") (hk2 : k ≠ "id")
    (hmiss : hasField T (dejsonify k) = false) :
    Unmarshal oracle ctx (.ptrToSliceOfStruct T dst) =
      .errored ("expected struct " ++ T.name ++ " to have field " ++
        dejsonify k) st2.caller := by
  have hall1 : ∀ sv ∈ st1.work, WFStruct T sv :=
    wf_processModels oracle T (pluralize (jsonify T.name)) pre
      { caller := dst, work := dst, shared := true, appends := 0 } st1 hwf hpre
  have hwf0 : WFStruct T val0 := by
    cases loc with
    | some i =>
      obtain ⟨id, _, hf⟩ := idResolve_some T st1.work attributes i val0 hres
      obtain ⟨hget, _, _⟩ := findByID_some id st1.work i val0 hf
      exact hall1 val0 (List.get?_mem hget)
    | none =>
      obtain ⟨hv0, _⟩ := idResolve_none T st1.work attributes val0 hres
      rw [hv0]
      exact wf_zeroVal T
  have hwf1 : WFStruct T val1 :=
    (wf_processKeys T kpre st1 loc val0 st2 val1 hall1 hwf0 hkpre).1
  have hfb : fieldByName val1 (dejsonify k) = none :=
    wf_fieldByName_none T val1 (dejsonify k) hwf1 hmiss
  have hak : applyKey T val1 k v =
      .err ("expected struct " ++ T.name ++ " to have field " ++
        dejsonify k) := by
    rw [applyKey_default T val1 k v hk1 hk2, hfb]
  have h6 : processKeys T st1 loc val0 attributes =
      .err ("expected struct " ++ T.name ++ " to have field " ++
        dejsonify k) st2 := by
    rw [hsplit, pk_append, hkpre]
    show processKeys T st2 loc val1 ((k, v) :: krest) = _
    rw [processKeys_cons, hak]
  have h7 : processRecord oracle T st1 attributes =
      .err ("expected struct " ++ T.name ++ " to have field " ++
        dejsonify k) st2 := by
    rw [processRecord_def, hres]
    cases loc with
    | some i =>
      show (match processKeys T st1 (some i) val0 attributes with
        | KOut.ok st3 _ => SOut.ok st3
        | KOut.err e st3 => SOut.err e st3
        | KOut.fatal m => SOut.fatal m) = _
      rw [h6]
    | none =>
      show (match processKeys T st1 none val0 attributes with
        | KOut.ok st3 val3 => SOut.ok (st3.push oracle val3)
        | KOut.err e st3 => SOut.err e st3
        | KOut.fatal m => SOut.fatal m) = _
      rw [h6]
  rw [Unmarshal_slice, unmarshalInto_def, hroot]
  show (match processModels oracle T (pluralize (jsonify T.name))
      { caller := dst, work := dst, shared := true, appends := 0 }
      (pre ++ Value.obj attributes :: post) with
    | SOut.ok st3 => UnmarshalResult.succeeded st3.work
    | SOut.err e st3 => UnmarshalResult.errored e st3.caller
    | SOut.fatal m => UnmarshalResult.aborted m) = _
  rw [pm_append, hpre]
  show (match processModels oracle T (pluralize (jsonify T.name)) st1
      (Value.obj attributes :: post) with
    | SOut.ok st3 => UnmarshalResult.succeeded st3.work
    | SOut.err e st3 => UnmarshalResult.errored e st3.caller
    | SOut.fatal m => UnmarshalResult.aborted m) = _
  rw [processModels_cons_obj, h7]

/-- Witness for claim C3 at a concrete input: the first record of `ctxC3`
carries the unknown key `bogus`; the call errors naming struct `Post` and
field `Bogus`, and the record after it is not processed. -/
theorem unknown_field_error_stops_witness :
    Unmarshal (fun _ => false) ctxC3 (.ptrToSliceOfStruct PostT []) =
      .errored "expected struct Post to have field Bogus" [] :=
  unknown_field_error_stops (fun _ => false) PostT ctxC3 []
    [] [Value.obj [("title", .str "q")]] [("bogus", .str "x")] [] []
    "bogus" (.str "x")
    { caller := [], work := [], shared := true, appends := 0 }
    { caller := [], work := [], shared := true, appends := 0 }
    none (zeroVal PostT) (zeroVal PostT)
    (fun sv h => absurd h (List.not_mem_nil sv))
    rfl rfl rfl rfl rfl (by decide) (by decide) rfl

/-- Claim C5, amended: unmarshaling the same document twice into the same
destination yields the same final destination as unmarshaling it once,
provided every record object carries a string `"id"` under distinct record
keys, record ids are pairwise distinct, the identifier field is
string-kinded with distinct field names, no record key other than `"id"`
resolves to the identifier field, the destination elements are well formed,
and the first pass succeeds.  (Without an `"id"` the record is appended on
every pass — see the counterexample.) -/
theorem unmarshal_twice_idempotent (oracle1 oracle2 : Nat → Bool) (T : STy)
    (ctx : List (String × Value)) (dst out : List StructVal) (ms : List Value)
    (hndT : (T.fields.map Prod.fst).Nodup)
    (hid : lookupField T.fields "ID" = some .fstr)
    (hwf : ∀ sv ∈ dst, WFStruct T sv)
    (hroot : lookupKey ctx (pluralize (jsonify T.name)) = some (.arr ms))
    (hrec : ∀ m ∈ ms, recordOK m)
    (hids : (ms.map recID).Nodup)
    (h1 : Unmarshal oracle1 ctx (.ptrToSliceOfStruct T dst) =
      .succeeded out) :
    Unmarshal oracle2 ctx (.ptrToSliceOfStruct T out) = .succeeded out := by
  rw [Unmarshal_slice, unmarshalInto_def, hroot] at h1
  have h2 : (match processModels oracle1 T (pluralize (jsonify T.name))
      { caller := dst, work := dst, shared := true, appends := 0 } ms with
    | SOut.ok st => UnmarshalResult.succeeded st.work
    | SOut.err e st => UnmarshalResult.errored e st.caller
    | SOut.fatal m => UnmarshalResult.aborted m) =
      UnmarshalResult.succeeded out := h1
  cases hpm : processModels oracle1 T (pluralize (jsonify T.name))
      { caller := dst, work := dst, shared := true, appends := 0 } ms with
  | err e stE => rw [hpm] at h2; cases h2
  | fatal m => rw [hpm] at h2; cases h2
  | ok stF =>
    rw [hpm] at h2
    have hout : stF.work = out := by
      rw [UnmarshalResult.succeeded.injEq] at h2
      exact h2
    obtain ⟨st3, hpm2, hw3⟩ := run_twice_aux T (pluralize (jsonify T.name))
      hndT hid ms oracle1 oracle2
      { caller := dst, work := dst, shared := true, appends := 0 } stF
      { caller := out, work := out, shared := true, appends := 0 }
      hwf hrec hids hpm (by show out = stF.work; rw [hout])
    rw [Unmarshal_slice, unmarshalInto_def, hroot]
    show (match processModels oracle2 T (pluralize (jsonify T.name))
        { caller := out, work := out, shared := true, appends := 0 } ms with
      | SOut.ok st => UnmarshalResult.succeeded st.work
      | SOut.err e st => UnmarshalResult.errored e st.caller
      | SOut.fatal m => UnmarshalResult.aborted m) = _
    rw [hpm2, UnmarshalResult.succeeded.injEq, hw3]
    exact hout

/-- Witness for claim C5 at a concrete input: the document `ctxC5W`, whose
single record carries id `"9"`, unmarshaled once into an empty destination
gives `outC5`; a second pass over `outC5` reproduces `outC5` exactly, under
a different reallocation oracle. -/
theorem unmarshal_twice_idempotent_witness :
    Unmarshal (fun _ => true) ctxC5W (.ptrToSliceOfStruct PostT outC5) =
      .succeeded outC5 := by
  refine unmarshal_twice_idempotent (fun _ => false) (fun _ => true) PostT
    ctxC5W [] outC5 msC5 (by decide) rfl
    (fun sv h => absurd h (List.not_mem_nil sv)) rfl ?_ (by decide) rfl
  intro m hm
  rcases List.mem_singleton.mp hm with h
  subst h
  refine ⟨⟨"9", rfl⟩, by decide, ?_⟩
  intro e he
  rcases List.mem_cons.mp he with h1 | h2
  · subst h1
    exact trivial
  · rcases List.mem_singleton.mp h2 with h3
    subst h3
    show dejsonify "title" ≠ "ID"
    decide

end Api2go
